import Mathlib

/-!
Verification of the Observix control plane, agent reconciler and pipeline
engine against their natural-language specification.

The Python sources are shallowly embedded: Python dictionaries become
association lists in insertion order (matching Python dict semantics for
the operations used here), fallible code returns `Except`, wall-clock and
monotonic timestamps become explicit numeric parameters, and the network
is an explicit environment (poll results, indexer responses, send
outcomes) fed to otherwise pure transition functions.
-/

namespace Observix

/-- Model of a Python/JSON value as it appears in pipeline spec blobs,
HTTP request bodies and indexer responses.  Dictionaries are association
lists in insertion order; floats do not occur in the values the embedded
code inspects, so numbers are integers. -/
inductive PyVal where
  | pynull : PyVal
  | pybool : Bool → PyVal
  | pyint : Int → PyVal
  | pystr : String → PyVal
  | pylist : List PyVal → PyVal
  | pydict : List (String × PyVal) → PyVal

/-- A Python dict specialised to string keys: the shape of pipeline spec
blobs and event meta/structured mappings. -/
abbrev PyDict := List (String × PyVal)

/-- Python `d.get(k)` on an association list.  The code only builds
duplicate-free dicts, for which first-binding-wins agrees with dict
semantics. -/
def pyGet (d : PyDict) (k : String) : Option PyVal :=
  (d.find? (fun kv => kv.1 == k)).map (fun kv => kv.2)

/-- Python `d[k] = v`: replace the value in place if the key exists
(keeping its position, as Python dicts do), otherwise append. -/
def pySet (d : PyDict) (k : String) (v : PyVal) : PyDict :=
  if d.any (fun kv => kv.1 == k) then
    d.map (fun kv => if kv.1 == k then (k, v) else kv)
  else
    d ++ [(k, v)]

/-- Characters Python `str.strip()` removes. -/
def isPySpace (c : Char) : Bool :=
  c == ' ' || c == '\t' || c == '\n' || c == '\r' || c == '\x0b' || c == '\x0c'

/-- Python `s.strip()`. -/
def pyStrip (s : String) : String :=
  ⟨(((s.toList.dropWhile isPySpace).reverse.dropWhile isPySpace).reverse)⟩

/-- Python `s.rstrip("\r\n")` as used by the file-tail source. -/
def rstripCRLF (s : String) : String :=
  ⟨((s.toList.reverse.dropWhile (fun c => c == '\r' || c == '\n')).reverse)⟩

/-! ## Control-plane spec normalization (`observix_control_plane/api.py`) -/

/-- The canonical-shape test of `_normalize_pipeline_spec_dict`: the
current level already holds any of `source` / `destination` /
`processor`. -/
def looksCanonical (d : PyDict) : Bool :=
  (pyGet d "source").isSome || (pyGet d "destination").isSome ||
    (pyGet d "processor").isSome

/-- One iteration of the `for _ in range(2)` unwrap loop of
`_normalize_pipeline_spec_dict`: `some inner` means the loop continues
with the dict found under `spec`; `none` means the loop returns the
current level now (either because it looks canonical or because there is
no dict under `spec`). -/
def unwrapOnce (d : PyDict) : Option PyDict :=
  if looksCanonical d then none
  else
    match pyGet d "spec" with
    | some (.pydict inner) => some inner
    | _ => none

/-- `_normalize_pipeline_spec_dict`: unwrap accidental `{spec: …}`
wrappers, at most two levels. -/
def normalizePipelineSpecDict (d : PyDict) : PyDict :=
  match unwrapOnce d with
  | none => d
  | some d1 =>
    match unwrapOnce d1 with
    | none => d1
    | some d2 => d2

/-- Keys `_sanitize_pipeline_spec_dict` pops from the normalized spec. -/
def strippedKeys : List String := ["pipeline_id", "name", "enabled", "version"]

/-- `_sanitize_pipeline_spec_dict`: normalize, then remove the keys owned
by control-plane metadata.  `dict.pop` removes the unique binding of the
key; on the association list this is a filter. -/
def sanitizePipelineSpecDict (d : PyDict) : PyDict :=
  (normalizePipelineSpecDict d).filter (fun kv => !(strippedKeys.contains kv.1))

/-! ## Control-plane data model (`observix_control_plane/models.py`)

Server-generated uuid identifiers are modeled as naturals drawn from a
fresh-id counter; timestamps are naturals.  Rows are kept in insertion
order, and the clock passed to successive operations is nondecreasing in
any real execution, so `ORDER BY created_at ASC` coincides with list
order. -/

/-- A row of the `agents` table. -/
structure AgentRow where
  id : String
  region : String
  tenantId : Option String
  adminPort : Option Int
  capabilities : List String
  createdAt : Nat
  lastSeenAt : Nat
deriving DecidableEq, Repr

/-- A row of the `pipelines` table.  `spec` is the sanitized spec blob. -/
structure PipelineRow where
  id : Nat
  name : String
  enabled : Bool
  version : Nat
  spec : PyDict
  createdAt : Nat
  updatedAt : Nat

/-- A row of the `assignments` table. -/
structure AssignmentRow where
  id : Nat
  agentId : String
  region : String
  pipelineId : Nat
  createdAt : Nat
deriving DecidableEq, Repr

/-- The persistent control-plane state, plus the fresh-id counter that
models server-side uuid generation. -/
structure CPState where
  agents : List AgentRow
  pipelines : List PipelineRow
  assignments : List AssignmentRow
  nextId : Nat

/-- The empty database. -/
def CPState.init : CPState := ⟨[], [], [], 0⟩

/-- `session.get(Agent, agent_id)`. -/
def agentGet (s : CPState) (aid : String) : Option AgentRow :=
  s.agents.find? (fun a => a.id == aid)

/-- `session.get(Pipeline, pipeline_id)`. -/
def pipelineGet (s : CPState) (pid : Nat) : Option PipelineRow :=
  s.pipelines.find? (fun p => p.id == pid)

/-- `_upsert_agent` (used by `register_agent`): insert a fresh row with
`last_seen_at = created_at = now`, or update region / admin_port /
capabilities / last_seen_at of the existing row.  `tenant_id` is read
with `getattr(req, "tenant_id", None)` and the register request model has
no such field, so a fresh row always gets `None`. -/
def registerAgent (s : CPState) (aid region : String) (adminPort : Option Int)
    (caps : List String) (now : Nat) : CPState :=
  match agentGet s aid with
  | none =>
    { s with agents := s.agents ++ [⟨aid, region, none, adminPort, caps, now, now⟩] }
  | some _ =>
    { s with agents := s.agents.map (fun a =>
        if a.id == aid then
          { a with region := region, adminPort := adminPort,
                   capabilities := caps, lastSeenAt := now }
        else a) }

/-- The `heartbeat` endpoint: 404 `agent_not_found` when the agent is
unknown, otherwise update the row and `last_seen_at`. -/
def heartbeatAgent (s : CPState) (aid region : String) (adminPort : Option Int)
    (caps : List String) (now : Nat) : Except String CPState :=
  match agentGet s aid with
  | none => .error "agent_not_found"
  | some _ =>
    .ok { s with agents := s.agents.map (fun a =>
        if a.id == aid then
          { a with region := region, adminPort := adminPort,
                   capabilities := caps, lastSeenAt := now }
        else a) }

/-- `_touch_agent`: bump `last_seen_at`, 404 when the agent is unknown. -/
def touchAgent (s : CPState) (aid : String) (now : Nat) : Except String CPState :=
  match agentGet s aid with
  | none => .error "agent_not_found"
  | some _ =>
    .ok { s with agents := s.agents.map (fun a =>
        if a.id == aid then { a with lastSeenAt := now } else a) }

/-- The `create_pipeline` endpoint: sanitize the incoming spec and insert
a row with `version = 1` and a fresh server-generated id. -/
def createPipeline (s : CPState) (name : String) (enabled : Bool)
    (spec : PyDict) (now : Nat) : Nat × CPState :=
  let pid := s.nextId
  (pid,
   { s with
     pipelines := s.pipelines ++
       [⟨pid, name, enabled, 1, sanitizePipelineSpecDict spec, now, now⟩],
     nextId := s.nextId + 1 })

/-- The `update_pipeline` endpoint: 404 `pipeline_not_found` when absent;
otherwise overwrite name / enabled / sanitized spec, bump `version` by
one and set `updated_at`, unconditionally. -/
def updatePipeline (s : CPState) (pid : Nat) (name : String) (enabled : Bool)
    (spec : PyDict) (now : Nat) : Except String CPState :=
  match pipelineGet s pid with
  | none => .error "pipeline_not_found"
  | some _ =>
    .ok { s with pipelines := s.pipelines.map (fun p =>
        if p.id == pid then
          { p with name := name, enabled := enabled,
                   spec := sanitizePipelineSpecDict spec,
                   version := p.version + 1, updatedAt := now }
        else p) }

/-- The `create_assignment` endpoint: 404 when the agent or the pipeline
is absent; return the existing assignment id for a repeated triple;
otherwise insert a row with a fresh id. -/
def createAssignment (s : CPState) (aid region : String) (pid : Nat)
    (now : Nat) : Except String (Nat × CPState) :=
  if (agentGet s aid).isNone then .error "agent_not_found"
  else if (pipelineGet s pid).isNone then .error "pipeline_not_found"
  else
    match s.assignments.find? (fun x =>
        x.agentId == aid && x.region == region && x.pipelineId == pid) with
    | some ex => .ok (ex.id, s)
    | none =>
      .ok (s.nextId,
        { s with
          assignments := s.assignments ++ [⟨s.nextId, aid, region, pid, now⟩],
          nextId := s.nextId + 1 })

/-- The `delete_assignment` endpoint. -/
def deleteAssignment (s : CPState) (aid : Nat) : Except String CPState :=
  if s.assignments.any (fun x => x.id == aid) then
    .ok { s with assignments := s.assignments.filter (fun x => !(x.id == aid)) }
  else .error "assignment_not_found"

/-- The rows `get_assignments` selects for (agent_id, region), in
`created_at` ascending order. -/
def assignmentRowsFor (s : CPState) (aid region : String) : List AssignmentRow :=
  s.assignments.filter (fun x => x.agentId == aid && x.region == region)

/-- The inner join with `pipelines` performed by `get_assignments`. -/
def joinRows (s : CPState) (aid region : String) :
    List (AssignmentRow × PipelineRow) :=
  (assignmentRowsFor s aid region).filterMap (fun x =>
    (pipelineGet s x.pipelineId).map (fun p => (x, p)))

/-- One entry of the `etag_basis` list built by `get_assignments`:
assignment id, pipeline id, pipeline version, pipeline `updated_at`. -/
structure EtagRow where
  assignmentId : Nat
  pipelineId : Nat
  version : Nat
  updatedAt : Nat
deriving DecidableEq, Repr

/-- The `etag_basis` payload of `get_assignments`.  The HTTP ETag is the
SHA-256 hex digest of the canonical JSON serialization (stable key
order, compact separators) of exactly this list; the serialization is
injective on these records, so two ETags are equal exactly when their
basis lists are equal (SHA-256 collisions being outside the model). -/
def etagBasis (s : CPState) (aid region : String) : List EtagRow :=
  (joinRows s aid region).map (fun ap => ⟨ap.1.id, ap.2.id, ap.2.version, ap.2.updatedAt⟩)

/-- The observable the specification says the ETag must track: the
assignment rows of (agent_id, region) together with the version of each
bound pipeline.  The list is in assignment-creation order, so equality of
these lists is equality of the assignment sets plus their versions. -/
def assignmentView (s : CPState) (aid region : String) :
    List (AssignmentRow × Nat) :=
  (joinRows s aid region).map (fun ap => (ap.1, ap.2.version))

/-! ## Agent-facing DTO construction (`_to_pipeline_spec`, `observix_common/models.py`) -/

/-- Source types accepted by the `PipelineSource` pydantic model
(`Literal["file_tail", "syslog_udp"]`). -/
def sourceTypesAllowed : List String := ["file_tail", "syslog_udp"]

/-- Destination types accepted by `PipelineDestination`. -/
def destinationTypesAllowed : List String := ["http", "syslog_udp", "file"]

/-- Processor modes accepted by `PipelineProcessor`. -/
def processorModesAllowed : List String := ["raw", "indexed"]

/-- The validated `PipelineSource` model. -/
structure PipelineSourceV where
  type : String
  options : PyDict

/-- The validated `PipelineProcessor` model. -/
structure PipelineProcessorV where
  mode : String
  options : PyDict

/-- The validated `PipelineDestination` model. -/
structure PipelineDestinationV where
  type : String
  options : PyDict

/-- The validated `PipelineSpec` model: the DTO returned to agents. -/
structure PipelineSpecV where
  pipelineId : Nat
  name : String
  enabled : Bool
  source : PipelineSourceV
  processor : PipelineProcessorV
  destination : PipelineDestinationV
  batchMaxEvents : Int
  batchMaxSeconds : ℚ

/-- Python truthiness for the values of the model. -/
def pyTruthy : PyVal → Bool
  | .pynull => false
  | .pybool b => b
  | .pyint n => n != 0
  | .pystr s => s != ""
  | .pylist xs => !xs.isEmpty
  | .pydict d => !d.isEmpty

/-- Python `int(v)` for the values that occur in spec blobs. -/
def pyToInt : PyVal → Except String Int
  | .pyint n => .ok n
  | .pybool b => .ok (if b then 1 else 0)
  | .pystr s =>
    match s.trim.toInt? with
    | some n => .ok n
    | none => .error "value_error_int"
  | _ => .error "type_error_int"

/-- Python `float(v)` for the values that occur in spec blobs (decimal
strings beyond integers are not modeled). -/
def pyToRat : PyVal → Except String ℚ
  | .pyint n => .ok (n : ℚ)
  | .pybool b => .ok (if b then 1 else 0)
  | .pystr s =>
    match s.trim.toInt? with
    | some n => .ok (n : ℚ)
    | none => .error "value_error_float"
  | _ => .error "type_error_float"

/-- The `x = spec.get(k) or default` pattern: a missing or falsy value
falls back to the default, modeled here as `none`. -/
def specSection (v : Option PyVal) : Option PyVal :=
  match v with
  | none => none
  | some w => if pyTruthy w then some w else none

/-- Keyword expansion `C(**x)`: `x` must be a mapping. -/
def asMapping : PyVal → Except String PyDict
  | .pydict d => .ok d
  | _ => .error "type_error_mapping_expansion"

/-- The `options` field shared by the section models: defaults to an
empty dict, must be a mapping when present. -/
def optionsField (d : PyDict) : Except String PyDict :=
  match pyGet d "options" with
  | none => .ok []
  | some (.pydict o) => .ok o
  | some _ => .error "validation_error_options"

/-- `PipelineSource(**source_dict)`: pydantic validation of the source
section, whose `type` is `Literal["file_tail", "syslog_udp"]`. -/
def mkPipelineSource (d : PyDict) : Except String PipelineSourceV :=
  match pyGet d "type" with
  | some (.pystr t) =>
    if sourceTypesAllowed.contains t then do
      let o ← optionsField d
      .ok ⟨t, o⟩
    else .error "validation_error_source_type"
  | _ => .error "validation_error_source_type"

/-- `PipelineDestination(**destination_dict)`. -/
def mkPipelineDestination (d : PyDict) : Except String PipelineDestinationV :=
  match pyGet d "type" with
  | some (.pystr t) =>
    if destinationTypesAllowed.contains t then do
      let o ← optionsField d
      .ok ⟨t, o⟩
    else .error "validation_error_destination_type"
  | _ => .error "validation_error_destination_type"

/-- `PipelineProcessor(**processor_dict)`: `mode` defaults to `"raw"`. -/
def mkPipelineProcessor (d : PyDict) : Except String PipelineProcessorV :=
  match pyGet d "mode" with
  | none => do
    let o ← optionsField d
    .ok ⟨"raw", o⟩
  | some (.pystr m) =>
    if processorModesAllowed.contains m then do
      let o ← optionsField d
      .ok ⟨m, o⟩
    else .error "validation_error_processor_mode"
  | some _ => .error "validation_error_processor_mode"

/-- `_to_pipeline_spec`: map a DB pipeline row to the agent-facing DTO.
Missing (or falsy) `source` / `destination` raise the
`pipeline_spec_invalid_missing_source_or_destination` internal error
before any pydantic validation; then the sections are validated in the
order the constructor arguments are evaluated (source, processor,
destination, batch fields, then the `ge` bounds of `PipelineSpec`). -/
def toPipelineSpec (p : PipelineRow) : Except String PipelineSpecV :=
  let spec := normalizePipelineSpecDict p.spec
  let procSec := (specSection (pyGet spec "processor")).getD
    (.pydict [("mode", .pystr "raw"), ("options", .pydict [])])
  match specSection (pyGet spec "source"), specSection (pyGet spec "destination") with
  | some sv, some dv =>
    match asMapping sv with
    | .error e => .error e
    | .ok sd =>
      match mkPipelineSource sd with
      | .error e => .error e
      | .ok src =>
        match asMapping procSec with
        | .error e => .error e
        | .ok pd =>
          match mkPipelineProcessor pd with
          | .error e => .error e
          | .ok proc =>
            match asMapping dv with
            | .error e => .error e
            | .ok dd =>
              match mkPipelineDestination dd with
              | .error e => .error e
              | .ok dst =>
                match pyToInt ((pyGet spec "batch_max_events").getD (.pyint 200)) with
                | .error e => .error e
                | .ok bme =>
                  match pyToRat ((pyGet spec "batch_max_seconds").getD (.pyint 1)) with
                  | .error e => .error e
                  | .ok bms =>
                    if bme < 1 then .error "validation_error_batch_max_events"
                    else if bms < 1 / 10 then
                      .error "validation_error_batch_max_seconds"
                    else .ok ⟨p.id, p.name, p.enabled, src, proc, dst, bme, bms⟩
  | _, _ => .error "pipeline_spec_invalid_missing_source_or_destination"

/-- The validated `Assignment` DTO of the assignments response. -/
structure AssignmentDTOV where
  assignmentId : Nat
  agentId : String
  region : String
  pipeline : PipelineSpecV
  revision : Nat
  updatedAt : Nat

/-- The body of a successful `get_assignments` response.  The `etag`
field carries the basis payload whose canonical serialization is hashed
into the HTTP ETag. -/
structure AssignmentsResponseCP where
  agentId : String
  region : String
  etag : List EtagRow
  assignments : List AssignmentDTOV

/-- The DTO-building loop of `get_assignments`: one DTO per joined row,
raising on the first row whose stored spec fails `_to_pipeline_spec` or
whose `revision` violates `ge=1`. -/
def buildAssignmentDTOs : List (AssignmentRow × PipelineRow) →
    Except String (List AssignmentDTOV)
  | [] => .ok []
  | ap :: rest =>
    match toPipelineSpec ap.2 with
    | .error e => .error e
    | .ok ps =>
      if ap.2.version < 1 then .error "validation_error_revision"
      else
        match buildAssignmentDTOs rest with
        | .error e => .error e
        | .ok tail =>
          .ok ((⟨ap.1.id, ap.1.agentId, ap.1.region, ps, ap.2.version,
                ap.2.updatedAt⟩ : AssignmentDTOV) :: tail)

/-- The `get_assignments` endpoint: 404 for an unknown agent, then one
DTO per joined row; any row failing DTO construction fails the whole
request. -/
def getAssignmentsRes (s : CPState) (aid region : String) :
    Except String AssignmentsResponseCP :=
  if (agentGet s aid).isNone then .error "agent_not_found"
  else
    match buildAssignmentDTOs (joinRows s aid region) with
    | .error e => .error e
    | .ok dtos => .ok ⟨aid, region, etagBasis s aid region, dtos⟩

/-! ## Control-plane operations and traces -/

/-- One control-plane API call, with the wall-clock time at which it
runs. -/
inductive Op where
  | register (aid region : String) (adminPort : Option Int)
      (caps : List String) (now : Nat)
  | heartbeat (aid region : String) (adminPort : Option Int)
      (caps : List String) (now : Nat)
  | pull (aid region : String) (now : Nat)
  | createPipe (name : String) (enabled : Bool) (spec : PyDict) (now : Nat)
  | updatePipe (pid : Nat) (name : String) (enabled : Bool)
      (spec : PyDict) (now : Nat)
  | assign (aid region : String) (pid : Nat) (now : Nat)
  | unassign (aid : Nat)

/-- The state transition of one API call.  A failing call leaves the
state unchanged: `session_scope` rolls the transaction back on any
exception; in particular a `get_assignments` pull whose DTO construction
fails also rolls back its `last_seen_at` touch. -/
def step (s : CPState) : Op → CPState
  | .register aid region ap caps now => registerAgent s aid region ap caps now
  | .heartbeat aid region ap caps now =>
    (heartbeatAgent s aid region ap caps now).toOption.getD s
  | .pull aid region now =>
    match getAssignmentsRes s aid region with
    | .error _ => s
    | .ok _ => (touchAgent s aid now).toOption.getD s
  | .createPipe name enabled spec now => (createPipeline s name enabled spec now).2
  | .updatePipe pid name enabled spec now =>
    (updatePipeline s pid name enabled spec now).toOption.getD s
  | .assign aid region pid now =>
    match createAssignment s aid region pid now with
    | .error _ => s
    | .ok (_, s2) => s2
  | .unassign aid => (deleteAssignment s aid).toOption.getD s

/-- Run a list of API calls. -/
def runOps (s : CPState) (ops : List Op) : CPState := ops.foldl step s

/-! ## Agent reconciler (`observix_agent/agent.py`) -/

/-- Association-list lookup for dicts keyed by pipeline id. -/
def assocGet {α : Type} (d : List (Nat × α)) (k : Nat) : Option α :=
  (d.find? (fun kv => kv.1 == k)).map (fun kv => kv.2)

/-- Key-membership test. -/
def assocHas {α : Type} (d : List (Nat × α)) (k : Nat) : Bool :=
  d.any (fun kv => kv.1 == k)

/-- Python dict insertion: replace in place or append. -/
def assocSet {α : Type} (d : List (Nat × α)) (k : Nat) (v : α) : List (Nat × α) :=
  if d.any (fun kv => kv.1 == k) then
    d.map (fun kv => if kv.1 == k then (k, v) else kv)
  else
    d ++ [(k, v)]

/-- A constructed `PipelineRunner`, identified by the spec it was built
from (the runtime and retry policy passed alongside are fixed per
agent). -/
structure RunnerModel where
  spec : PipelineSpecV

/-- `PipelineRunner(rt, runner_spec, retry)`. -/
def mkRunner (spec : PipelineSpecV) : RunnerModel := ⟨spec⟩

/-- The reconciler state of the agent: `self._etag` and the
`self._pipelines` runner map. -/
structure AgentSt where
  etag : Option String
  pipelines : List (Nat × RunnerModel)

/-- An assignments response as the agent sees it. -/
structure AssignmentsRespA where
  etag : String
  assignments : List AssignmentDTOV

/-- The `new_specs` dict comprehension of `_apply_assignments`: enabled
pipelines keyed by pipeline id (later duplicates overwrite earlier
values in place, as in a Python dict). -/
def buildNewSpecs (l : List AssignmentDTOV) : List (Nat × PipelineSpecV) :=
  l.foldl (fun d a =>
    if a.pipeline.enabled then assocSet d a.pipeline.pipelineId a.pipeline else d) []

/-- `Agent._apply_assignments`: fast path on an unchanged etag; else
record the new etag, drop runners whose pipeline id is no longer
assigned, and create runners for ids not currently running.  An id that
is already running is skipped (`continue`), keeping its existing
runner. -/
def applyAssignments (st : AgentSt) (resp : AssignmentsRespA) : AgentSt :=
  if st.etag == some resp.etag then st
  else
    let newSpecs := buildNewSpecs resp.assignments
    let kept := st.pipelines.filter (fun pr => assocHas newSpecs pr.1)
    let added := (newSpecs.filter (fun kv => !(assocHas kept kv.1))).map
      (fun kv => (kv.1, mkRunner kv.2))
    { etag := some resp.etag, pipelines := kept ++ added }

/-! ## Pipeline runner (`observix_agent/pipeline.py`)

Monotonic clock readings, source poll results and destination send
outcomes are supplied by a per-tick environment; the runner itself is a
pure state transition. -/

/-- The in-pipeline event representation (`observix_agent/events.py`). -/
structure Event where
  ts : Nat
  raw : String
  structured : PyDict
  meta : PyDict

/-- A destination send failure: exception class name and message. -/
structure SendErr where
  kind : String
  msg : String

/-- The per-runner configuration extracted from the spec in
`PipelineRunner.__init__`, plus the agent meta stamped onto every
processed event. -/
structure RunnerCfg where
  pipelineId : String
  name : String
  enabled : Bool
  batchMaxEvents : Nat
  batchMaxSeconds : ℚ
  agentMeta : PyDict

/-- The mutable runner state: buffer, inflight batch, retry schedule and
the metrics counters. -/
structure RunnerState where
  buffer : List Event
  lastFlush : ℚ
  sendAttempt : Nat
  nextSendAt : ℚ
  inflight : List Event
  received : Nat
  buffered : Nat
  sentBatches : Nat
  sentEvents : Nat
  sendFailures : Nat
  lastOkAt : Option ℚ
  lastErr : Option String

/-- The state `PipelineRunner.__init__` leaves behind, `t0` being the
`time.monotonic()` reading taken for `_last_flush`. -/
def initRunner (t0 : ℚ) : RunnerState :=
  ⟨[], t0, 0, 0, [], 0, 0, 0, 0, 0, none, none⟩

/-- The clock readings and external outcomes one `tick` consumes:
`now` at entry, `flushNow` inside `_flush_if_needed`, `postProcNow` when
scheduling the immediate send, the destination outcome, `okWall` /
`failNow` in the two send branches and `jitterBase` for
`time.monotonic() % 1.0` inside the backoff computation.  Consecutive
monotonic reads within one branch are merged into one field. -/
structure TickEnv where
  now : ℚ
  pulled : List Event
  flushNow : ℚ
  postProcNow : ℚ
  sendResult : Except SendErr Unit
  okWall : ℚ
  failNow : ℚ
  jitterBase : ℚ

/-- `PipelineRunner._compute_backoff_seconds`: exponential backoff with
bounded jitter; `jitterBase` models `time.monotonic() % 1.0`. -/
def computeBackoffSeconds (attempt : Nat) (jitterBase : ℚ) : ℚ :=
  let base : ℚ := 1 / 2
  let cap : ℚ := 10
  let e := min cap (base * 2 ^ (attempt - 1))
  let jitter := jitterBase * (1 / 4)
  min cap (e + jitter)

/-- Python `dict.update`. -/
def pyUpdate (d upd : PyDict) : PyDict :=
  upd.foldl (fun acc kv => pySet acc kv.1 kv.2) d

/-- The meta stamping `_flush_if_needed` applies to every processed
event. -/
def stampEvent (cfg : RunnerCfg) (e : Event) : Event :=
  let m1 := pyUpdate e.meta cfg.agentMeta
  let m2 := pySet m1 "pipeline" (.pystr cfg.name)
  let m3 :=
    if cfg.pipelineId != "" then pySet m2 "pipeline_id" (.pystr cfg.pipelineId)
    else m2
  { e with meta := m3 }

/-- `PipelineRunner._try_send_inflight`: on success clear `inflight` and
reset the retry state; on failure keep `inflight` untouched, count the
failure, record `last_err = "<ErrorKind>: <message>"` and schedule the
next attempt at `now + backoff(send_attempt)` with the incremented
attempt counter. -/
def trySendInflight (env : TickEnv) (st : RunnerState) : RunnerState :=
  if st.inflight.isEmpty then st
  else
    match env.sendResult with
    | .ok _ =>
      { st with
        sentBatches := st.sentBatches + 1,
        sentEvents := st.sentEvents + st.inflight.length,
        lastOkAt := some env.okWall,
        lastErr := none,
        inflight := [],
        sendAttempt := 0,
        nextSendAt := 0 }
    | .error e =>
      { st with
        sendFailures := st.sendFailures + 1,
        lastErr := some (e.kind ++ ": " ++ e.msg),
        sendAttempt := st.sendAttempt + 1,
        nextSendAt := env.failNow +
          computeBackoffSeconds (st.sendAttempt + 1) env.jitterBase }

/-- `PipelineRunner._flush_if_needed`.  When the processor raises (an
`.error` outcome) the exception propagates out of the tick after the
buffer has already been cut and cleared: the returned state reflects
exactly the mutations made before the raise. -/
def flushIfNeeded (proc : List Event → Except String (List Event))
    (cfg : RunnerCfg) (env : TickEnv) (st : RunnerState) : RunnerState :=
  if st.buffer.isEmpty then st
  else if st.buffer.length < cfg.batchMaxEvents &&
      decide (env.flushNow - st.lastFlush < cfg.batchMaxSeconds) then st
  else
    let batch := st.buffer
    let st1 := { st with buffer := [], lastFlush := env.flushNow }
    match proc batch with
    | .error _ => st1
    | .ok processed =>
      let stamped := processed.map (stampEvent cfg)
      let st2 := { st1 with
        inflight := stamped, sendAttempt := 0, nextSendAt := env.postProcNow }
      trySendInflight env st2

/-- `PipelineRunner.tick`. -/
def tick (proc : List Event → Except String (List Event)) (cfg : RunnerCfg)
    (env : TickEnv) (st : RunnerState) : RunnerState :=
  if !cfg.enabled then st
  else if !st.inflight.isEmpty && decide (env.now < st.nextSendAt) then st
  else if !st.inflight.isEmpty then trySendInflight env st
  else
    let st1 :=
      if env.pulled.isEmpty then st
      else
        { st with
          buffer := st.buffer ++ env.pulled,
          received := st.received + env.pulled.length,
          buffered := st.buffered + env.pulled.length }
    flushIfNeeded proc cfg env st1

/-- A sequence of ticks. -/
def runTicks (proc : List Event → Except String (List Event)) (cfg : RunnerCfg)
    (envs : List TickEnv) (st : RunnerState) : RunnerState :=
  envs.foldl (fun s e => tick proc cfg e s) st

/-- `RawProcessor.process`: the identity. -/
def rawProcess : List Event → Except String (List Event) := fun evs => .ok evs

/-! ## Sources (`observix_agent/sources/`) -/

/-- `FileTailSource.poll`: read whole lines while fewer than
`max_events` events have been produced, strip trailing CR/LF, drop empty
lines.  The remaining lines of the file stand in for the `readline`
stream; `ts` is the event timestamp default. -/
def fileTailPoll (ts : Nat) : List String → Nat → List Event
  | _, 0 => []
  | [], _ => []
  | line :: rest, n + 1 =>
    let l := rstripCRLF line
    if l == "" then fileTailPoll ts rest (n + 1)
    else ⟨ts, l, [], []⟩ :: fileTailPoll ts rest n

/-- The syslog UDP receiver loop body for one datagram: decode (already
applied), strip, drop empty, stamp the source meta. -/
def syslogDatagramEvent (ts : Nat) (decoded remoteAddr : String) : Option Event :=
  let raw := pyStrip decoded
  if raw == "" then none
  else
    some ⟨ts, raw, [],
      [("source", .pystr "syslog_udp"), ("remote_addr", .pystr remoteAddr)]⟩

/-- Compact JSON serialization (`json.dumps(item, separators=(",", ":"),
ensure_ascii=False)`).  String escaping is omitted: the serialized value
is only ever inspected for non-emptiness here. -/
def jsonDumps : PyVal → String
  | .pynull => "null"
  | .pybool true => "true"
  | .pybool false => "false"
  | .pyint n => toString n
  | .pystr s => "\"" ++ s ++ "\""
  | .pylist xs =>
    "[" ++ String.intercalate "," (xs.attach.map (fun x => jsonDumps x.1)) ++ "]"
  | .pydict kvs =>
    "\x7b" ++
      String.intercalate ","
        (kvs.attach.map (fun kv => "\"" ++ kv.1.1 ++ "\":" ++ jsonDumps kv.1.2)) ++
      "\x7d"
termination_by v => sizeOf v
decreasing_by
  · have h := List.sizeOf_lt_of_mem x.2
    simp only [PyVal.pylist.sizeOf_spec]
    omega
  · have h := List.sizeOf_lt_of_mem kv.2
    have h2 : sizeOf kv.1 = 1 + sizeOf kv.1.1 + sizeOf kv.1.2 := by
      rcases kv with ⟨⟨a, b⟩, hm⟩
      simp
    simp only [PyVal.pydict.sizeOf_spec]
    omega

/-- Python `str(v)` for the values of the model (container rendering
approximated by the JSON form; only its non-emptiness is used). -/
def pyStr : PyVal → String
  | .pynull => "None"
  | .pybool true => "True"
  | .pybool false => "False"
  | .pyint n => toString n
  | .pystr s => s
  | .pylist xs => jsonDumps (.pylist xs)
  | .pydict d => jsonDumps (.pydict d)

/-- The request meta `HttpListenerSource._meta_from_request` builds. -/
def httpMeta (path : String) (client userAgent : Option String) : PyDict :=
  [("source", .pystr "http_listener"), ("path", .pystr path),
   ("client", match client with | some c => .pystr c | none => .pynull),
   ("user_agent", match userAgent with | some u => .pystr u | none => .pynull)]

/-- `HttpListenerSource._event_from_item`: one item of a JSON body.
Strings must strip to non-empty; dicts take their stripped string `raw`
field when present (with no emptiness check) or the compact JSON dump of
the whole item otherwise, and every key except `raw` goes into
`structured`; any other value is stringified and must strip to
non-empty. -/
def eventFromItem (ts : Nat) (item : PyVal) (meta : PyDict) : Option Event :=
  match item with
  | .pystr s =>
    let raw := pyStrip s
    if raw == "" then none else some ⟨ts, raw, [], meta⟩
  | .pydict d =>
    let raw :=
      match pyGet d "raw" with
      | some (.pystr v) => pyStrip v
      | _ => jsonDumps (.pydict d)
    let structured := d.filter (fun kv => !(kv.1 == "raw"))
    some ⟨ts, raw, structured, meta⟩
  | v =>
    let raw := pyStrip (pyStr v)
    if raw == "" then none else some ⟨ts, raw, [], meta⟩

/-- The non-JSON content-type branch of the ingest route: the whole body
as a single raw text event if it strips to non-empty. -/
def plainTextEvent (ts : Nat) (body : String) (meta : PyDict) : Option Event :=
  let raw := pyStrip body
  if raw == "" then none else some ⟨ts, raw, [], meta⟩

/-- The JSON branch of the ingest route: an array yields one event per
item, anything else is a single item. -/
def eventsFromJson (ts : Nat) (payload : PyVal) (meta : PyDict) : List Event :=
  match payload with
  | .pylist items => items.filterMap (fun it => eventFromItem ts it meta)
  | _ => (eventFromItem ts payload meta).toList

/-! ## Source construction (`PipelineRunner._build_source`) -/

/-- A constructed source implementation. -/
inductive SourceImpl where
  | fileTail (path : String) (fromStart : Bool) (startPosition : Option PyVal)
  | syslogUdp (host : String) (port : Int) (maxQueueSize : Int)
  | httpListener (host : String) (port : Int) (path : String) (maxQueueSize : Int)

/-- The `opts = cfg.get("options") or {}` pattern followed by item
access, which needs `opts` to be a mapping when truthy. -/
def optionsOrEmpty (cfg : PyDict) : Except String PyDict :=
  match pyGet cfg "options" with
  | none => .ok []
  | some v => if pyTruthy v then asMapping v else .ok []

/-- `PipelineRunner._build_source`: dispatch on `str(cfg.get("type"))`.
It accepts `file_tail`, `syslog_udp` and `http_listener`, and raises
`ValueError` on anything else. -/
def buildSource (cfg : PyDict) : Except String SourceImpl :=
  let t := pyStr ((pyGet cfg "type").getD .pynull)
  if t == "file_tail" then do
    let opts ← optionsOrEmpty cfg
    match pyGet opts "path" with
    | none => .error "key_error_path"
    | some pv =>
      .ok (.fileTail (pyStr pv)
        (pyTruthy ((pyGet opts "from_start").getD (.pybool false)))
        (pyGet opts "start_position"))
  else if t == "syslog_udp" then do
    let opts ← optionsOrEmpty cfg
    match pyGet opts "port" with
    | none => .error "key_error_port"
    | some pv => do
      let port ← pyToInt pv
      let mqs ← pyToInt ((pyGet opts "max_queue_size").getD (.pyint 50000))
      .ok (.syslogUdp (pyStr ((pyGet opts "host").getD (.pystr "0.0.0.0"))) port mqs)
  else if t == "http_listener" then do
    let opts ← optionsOrEmpty cfg
    match pyGet opts "port" with
    | none => .error "key_error_port"
    | some pv => do
      let port ← pyToInt pv
      let mqs ← pyToInt ((pyGet opts "max_queue_size").getD (.pyint 50000))
      .ok (.httpListener (pyStr ((pyGet opts "host").getD (.pystr "0.0.0.0"))) port
        (pyStr ((pyGet opts "path").getD (.pystr "/ingest"))) mqs)
  else .error ("unknown source type: " ++ t)

/-! ## Indexed processor (`observix_agent/processors/indexed.py`)

The indexer is external: the environment supplies the parsed JSON body
of each successful HTTP response, one per input line in order.  A 422,
another non-2xx status, or a transport failure all raise out of
`process`; they are modeled by the response list running short. -/

/-- Python `str()` of an `Event` as pydantic renders it; only used as
the last-resort fallback of `_extract_raw_line` and always non-empty. -/
def eventStr (e : Event) : String :=
  "ts=" ++ toString e.ts ++ " raw=" ++ e.raw

/-- `_extract_raw_line`: the field mapping of an `Event` holds `raw` as
its only string field, so the key loop returns `raw` when it strips to
non-empty and falls back to `str(event)` otherwise. -/
def extractRawLine (e : Event) : String :=
  if pyStrip e.raw != "" then e.raw else eventStr e

/-- All elements of the list are mappings. -/
def allDicts (xs : List PyVal) : Bool :=
  xs.all (fun x => match x with | .pydict _ => true | _ => false)

/-- The dicts of a list known to contain only dicts. -/
def dictsOf (xs : List PyVal) : List PyDict :=
  xs.filterMap (fun x => match x with | .pydict d => some d | _ => none)

/-- `_extract_events_from_normalize_response`: accept a bare list of
mappings or one of the `events` / `event` / `docs` / `doc` envelope
shapes, trying them in that order (an `events` key of the wrong shape
falls through to the next key rather than failing). -/
def extractNormalizeResponse : PyVal → Except String (List PyDict)
  | .pylist xs =>
    if allDicts xs then .ok (dictsOf xs)
    else .error "indexer_response_invalid_list_shape"
  | .pydict d =>
    let evs :=
      match pyGet d "events" with
      | some (.pylist xs) => if allDicts xs then some (dictsOf xs) else none
      | _ => none
    match evs with
    | some r => .ok r
    | none =>
      match pyGet d "event" with
      | some (.pydict e) => .ok [e]
      | _ =>
        let ds :=
          match pyGet d "docs" with
          | some (.pylist xs) => if allDicts xs then some (dictsOf xs) else none
          | _ => none
        match ds with
        | some r => .ok r
        | none =>
          match pyGet d "doc" with
          | some (.pydict e) => .ok [e]
          | _ => .error "indexer_response_missing_events_key"
  | _ => .error "indexer_response_invalid_non_object"

/-- The field names of the `Event` model (`Event.__annotations__`). -/
def eventFieldNames : List String := ["ts", "raw", "structured", "meta"]

/-- The `msg` computation of `_dict_to_event`: first of
raw/message/text/line/body that is a string stripping to non-empty, else
the fallback raw line. -/
def dictToEventMsg (d : PyDict) (fallbackRaw : String) : String :=
  let found := (["raw", "message", "text", "line", "body"]).findSome? (fun k =>
    match pyGet d k with
    | some (.pystr v) => if pyStrip v != "" then some v else none
    | _ => none)
  match found with
  | some v => v
  | none => fallbackRaw

/-- Does key `k` hold a string that strips to non-empty? -/
def strFieldOk (d : PyDict) (k : String) : Bool :=
  match pyGet d k with
  | some (.pystr v) => pyStrip v != ""
  | _ => false

/-- `_dict_to_event`: patch `raw` / `text` / `meta`, keep only the keys
the `Event` schema recognizes plus `raw` / `text` / `meta`, then build
the `Event` (pydantic ignores the extra `text` key and supplies defaults;
a `structured` or `meta` of the wrong type, or an unparseable `ts`, is a
validation error). -/
def dictToEvent (d : PyDict) (fallbackRaw : String) : Except String Event := do
  let msg := dictToEventMsg d fallbackRaw
  let d1 := if strFieldOk d "raw" then d else pySet d "raw" (.pystr msg)
  let d2 := if strFieldOk d1 "text" then d1 else pySet d1 "text" (.pystr msg)
  let d3 :=
    match pyGet d2 "meta" with
    | some (.pydict _) => d2
    | _ => pySet d2 "meta" (.pydict [])
  let d4 := d3.filter (fun kv => (eventFieldNames ++ ["raw", "text", "meta"]).contains kv.1)
  let ts ←
    match pyGet d4 "ts" with
    | none => Except.ok 0
    | some (.pyint n) => Except.ok n.toNat
    | some _ => Except.error "validation_error_ts"
  let raw ←
    match pyGet d4 "raw" with
    | some (.pystr v) => Except.ok v
    | _ => Except.error "validation_error_raw"
  let structured ←
    match pyGet d4 "structured" with
    | none => Except.ok ([] : PyDict)
    | some (.pydict sd) => Except.ok sd
    | some _ => Except.error "validation_error_structured"
  let meta ←
    match pyGet d4 "meta" with
    | some (.pydict md) => Except.ok md
    | _ => Except.error "validation_error_meta"
  .ok ⟨ts, raw, structured, meta⟩

/-- The per-line loop of `IndexedProcessor.process`: one indexer call
per raw line, failing when the responses run out (a transport or status
failure), when a response has an invalid shape, or when it contains no
documents. -/
def indexedGo : List String → List PyVal → Except String (List Event)
  | [], _ => .ok []
  | _ :: _, [] => .error "http_error"
  | raw :: rest, resp :: more => do
    let docs ← extractNormalizeResponse resp
    if docs.isEmpty then .error "indexer_response_empty"
    else do
      let evs ← docs.mapM (fun d => dictToEvent d raw)
      let tail ← indexedGo rest more
      .ok (evs ++ tail)

/-- `IndexedProcessor.process` under a given list of indexer response
bodies. -/
def indexedProcess (responses : List PyVal) (batch : List Event) :
    Except String (List Event) :=
  indexedGo (batch.map extractRawLine) responses

/-! ## C8: destination-send backoff -/

/-- C8: for every attempt ≥ 1 the destination-send backoff delay equals
min(cap, base · 2^(attempt−1)) + jitter for some jitter in [0, 0.25 s],
with base = 0.5 s and cap = 10 s, and in particular the delay lies in
the closed interval [min(10, 0.5·2^(attempt−1)),
min(10, 0.5·2^(attempt−1)) + 0.25].  `t` is the `time.monotonic() % 1.0`
reading, so 0 ≤ t < 1. -/
theorem backoff_delay_bounds (attempt : Nat) (t : ℚ)
    (h1 : 1 ≤ attempt) (h2 : 0 ≤ t) (h3 : t < 1) :
    (∃ j : ℚ, 0 ≤ j ∧ j ≤ 1 / 4 ∧
      computeBackoffSeconds attempt t =
        min 10 (1 / 2 * 2 ^ (attempt - 1)) + j) ∧
    min 10 (1 / 2 * 2 ^ (attempt - 1)) ≤ computeBackoffSeconds attempt t ∧
    computeBackoffSeconds attempt t ≤ min 10 (1 / 2 * 2 ^ (attempt - 1)) + 1 / 4 := by
  have hjl : (0 : ℚ) ≤ t * (1 / 4) := by linarith
  have hju : t * (1 / 4) ≤ 1 / 4 := by linarith
  by_cases hc : attempt - 1 ≤ 4
  · have hpow : (2 : ℚ) ^ (attempt - 1) ≤ 2 ^ 4 :=
      pow_le_pow_right (by norm_num) hc
    have he : (1 / 2 : ℚ) * 2 ^ (attempt - 1) ≤ 8 := by
      norm_num at hpow ⊢
      linarith
    have hmin1 : min (10 : ℚ) (1 / 2 * 2 ^ (attempt - 1)) =
        1 / 2 * 2 ^ (attempt - 1) := min_eq_right (by linarith)
    have hmin2 : min (10 : ℚ) (1 / 2 * 2 ^ (attempt - 1) + t * (1 / 4)) =
        1 / 2 * 2 ^ (attempt - 1) + t * (1 / 4) := min_eq_right (by linarith)
    have heq : computeBackoffSeconds attempt t =
        min 10 (1 / 2 * 2 ^ (attempt - 1)) + t * (1 / 4) := by
      simp only [computeBackoffSeconds, hmin1, hmin2]
    refine ⟨⟨t * (1 / 4), hjl, hju, heq⟩, ?_, ?_⟩
    · rw [heq]; linarith
    · rw [heq]; linarith
  · have hc5 : 5 ≤ attempt - 1 := by omega
    have hpow : (2 : ℚ) ^ 5 ≤ 2 ^ (attempt - 1) :=
      pow_le_pow_right (by norm_num) hc5
    have he : (16 : ℚ) ≤ 1 / 2 * 2 ^ (attempt - 1) := by
      norm_num at hpow ⊢
      linarith
    have hmin1 : min (10 : ℚ) (1 / 2 * 2 ^ (attempt - 1)) = 10 :=
      min_eq_left (by linarith)
    have hmin2 : min (10 : ℚ) (10 + t * (1 / 4)) = 10 :=
      min_eq_left (by linarith)
    have heq : computeBackoffSeconds attempt t = 10 := by
      simp only [computeBackoffSeconds, hmin1, hmin2]
    refine ⟨⟨0, le_refl 0, by norm_num, ?_⟩, ?_, ?_⟩
    · rw [heq, hmin1]; ring
    · rw [heq, hmin1]
    · rw [heq, hmin1]; linarith

/-- Witness for C8 at attempt 3 with a monotonic residue of 1/2. -/
theorem backoff_delay_bounds_witness :
    (1 ≤ 3) ∧ ((0 : ℚ) ≤ 1 / 2) ∧ ((1 / 2 : ℚ) < 1) ∧
    ((∃ j : ℚ, 0 ≤ j ∧ j ≤ 1 / 4 ∧
      computeBackoffSeconds 3 (1 / 2) = min 10 (1 / 2 * 2 ^ (3 - 1)) + j) ∧
     min 10 (1 / 2 * 2 ^ (3 - 1)) ≤ computeBackoffSeconds 3 (1 / 2) ∧
     computeBackoffSeconds 3 (1 / 2) ≤ min 10 (1 / 2 * 2 ^ (3 - 1)) + 1 / 4) :=
  ⟨by norm_num, by norm_num, by norm_num,
   backoff_delay_bounds 3 (1 / 2) (by norm_num) (by norm_num) (by norm_num)⟩

/-! ## C4: send failure handling -/

/-- A failing (or empty-inflight) send attempt never changes `inflight`. -/
theorem trySend_error_inflight (v : TickEnv) (st : RunnerState)
    (h : ∃ e, v.sendResult = .error e) :
    (trySendInflight v st).inflight = st.inflight := by
  rcases h with ⟨e, he⟩
  cases hin : st.inflight with
  | nil => simp [trySendInflight, hin]
  | cons a l => simp [trySendInflight, hin, he]

/-- Any number of failing attempts leaves `inflight` unchanged. -/
theorem foldl_failing_preserves_inflight (envs : List TickEnv) (st : RunnerState)
    (h : ∀ v ∈ envs, ∃ e, v.sendResult = .error e) :
    (envs.foldl (fun s v => trySendInflight v s) st).inflight = st.inflight := by
  induction envs generalizing st with
  | nil => rfl
  | cons v rest ih =>
    have h1 : (trySendInflight v st).inflight = st.inflight :=
      trySend_error_inflight v st (h v (List.mem_cons_self v rest))
    have h2 := ih (trySendInflight v st)
      (fun w hw => h w (List.mem_cons_of_mem v hw))
    simpa [List.foldl_cons, h1] using h2

/-- C4: a failing send attempt on non-empty inflight leaves the inflight
batch exactly unchanged, increments `send_failures` and `send_attempt`
by one, records `last_err = "<ErrorKind>: <message>"`, and schedules
`next_send_monotonic = now_mono + backoff(send_attempt)` with the
incremented attempt; moreover any number of consecutive failing attempts
still leaves `inflight` unchanged — retries are unbounded. -/
theorem send_failure_contract (st : RunnerState) (env : TickEnv) (e : SendErr)
    (hne : st.inflight ≠ []) (hfail : env.sendResult = .error e) :
    (trySendInflight env st).inflight = st.inflight ∧
    (trySendInflight env st).sendFailures = st.sendFailures + 1 ∧
    (trySendInflight env st).sendAttempt = st.sendAttempt + 1 ∧
    (trySendInflight env st).lastErr = some (e.kind ++ ": " ++ e.msg) ∧
    (trySendInflight env st).nextSendAt =
      env.failNow + computeBackoffSeconds (st.sendAttempt + 1) env.jitterBase ∧
    ∀ envs : List TickEnv, (∀ v ∈ envs, ∃ e2, v.sendResult = .error e2) →
      (envs.foldl (fun s v => trySendInflight v s) st).inflight = st.inflight := by
  cases hin : st.inflight with
  | nil => exact absurd hin hne
  | cons a l =>
    refine ⟨?_, ?_, ?_, ?_, ?_, fun envs h => by
      rw [foldl_failing_preserves_inflight envs st h, hin]⟩
    all_goals simp [trySendInflight, hin, hfail]

/-- Witness for C4: one event inflight, a failing destination. -/
theorem send_failure_contract_witness :
    (⟨[], 0, 0, 0, [⟨0, "x", [], []⟩], 1, 1, 0, 0, 0, none, none⟩ :
        RunnerState).inflight ≠ [] ∧
    (⟨0, [], 0, 0, .error ⟨"RuntimeError", "boom"⟩, 0, 5, 0⟩ :
        TickEnv).sendResult = .error ⟨"RuntimeError", "boom"⟩ ∧
    ((trySendInflight ⟨0, [], 0, 0, .error ⟨"RuntimeError", "boom"⟩, 0, 5, 0⟩
        ⟨[], 0, 0, 0, [⟨0, "x", [], []⟩], 1, 1, 0, 0, 0, none, none⟩).inflight =
      [⟨0, "x", [], []⟩] ∧
     (trySendInflight ⟨0, [], 0, 0, .error ⟨"RuntimeError", "boom"⟩, 0, 5, 0⟩
        ⟨[], 0, 0, 0, [⟨0, "x", [], []⟩], 1, 1, 0, 0, 0, none, none⟩).lastErr =
      some "RuntimeError: boom") := by
  have h := send_failure_contract
    ⟨[], 0, 0, 0, [⟨0, "x", [], []⟩], 1, 1, 0, 0, 0, none, none⟩
    ⟨0, [], 0, 0, .error ⟨"RuntimeError", "boom"⟩, 0, 5, 0⟩
    ⟨"RuntimeError", "boom"⟩ (by simp) rfl
  exact ⟨by simp, rfl, h.1, h.2.2.2.1⟩

/-! ## C7: update_pipeline bumps version -/

/-- Lookup by id commutes with an id-preserving row update. -/
theorem find?_map_preserving (l : List PipelineRow) (f : PipelineRow → PipelineRow)
    (hid : ∀ x, (f x).id = x.id) (q : Nat) :
    (l.map f).find? (fun x => x.id == q) =
      (l.find? (fun x => x.id == q)).map f := by
  induction l with
  | nil => rfl
  | cons a rest ih =>
    rw [List.map_cons]
    by_cases h : (a.id == q) = true
    · have hfa : ((fun x => x.id == q) (f a)) = true := by
        simp only [hid]
        exact h
      rw [List.find?_cons_of_pos (p := fun x : PipelineRow => x.id == q) _ hfa,
        List.find?_cons_of_pos (p := fun x : PipelineRow => x.id == q) _ h]
      rfl
    · have hfa : ¬ ((fun x => x.id == q) (f a)) = true := by
        simp only [hid]
        exact h
      rw [List.find?_cons_of_neg (p := fun x : PipelineRow => x.id == q) _ hfa,
        List.find?_cons_of_neg (p := fun x : PipelineRow => x.id == q) _ h, ih]

/-- C7: updating an existing pipeline succeeds and replaces exactly that
row, bumping `version` by one even when name, enabled flag and spec are
unchanged, and leaving every other pipeline untouched; updating a
missing pipeline id fails with NotFound (`pipeline_not_found`) and
changes nothing. -/
theorem update_pipeline_contract (s : CPState) (pid : Nat) (name : String)
    (enabled : Bool) (spec : PyDict) (now : Nat) :
    (∀ p, pipelineGet s pid = some p →
      ∃ s2, updatePipeline s pid name enabled spec now = .ok s2 ∧
        pipelineGet s2 pid = some
          { p with name := name, enabled := enabled,
                   spec := sanitizePipelineSpecDict spec,
                   version := p.version + 1, updatedAt := now } ∧
        ∀ q, q ≠ pid → pipelineGet s2 q = pipelineGet s q) ∧
    (pipelineGet s pid = none →
      updatePipeline s pid name enabled spec now = .error "pipeline_not_found" ∧
      step s (.updatePipe pid name enabled spec now) = s) := by
  constructor
  · intro p hp
    have hupd : updatePipeline s pid name enabled spec now =
        .ok { s with pipelines := s.pipelines.map (fun x =>
          if x.id == pid then
            { x with name := name, enabled := enabled,
                     spec := sanitizePipelineSpecDict spec,
                     version := x.version + 1, updatedAt := now }
          else x) } := by
      simp [updatePipeline, hp]
    refine ⟨_, hupd, ?_, ?_⟩
    · have hp2 : s.pipelines.find? (fun x => x.id == pid) = some p := hp
      have hpid : (p.id == pid) = true :=
        List.find?_some (p := fun x : PipelineRow => x.id == pid) hp2
      have := find?_map_preserving s.pipelines
        (fun x => if x.id == pid then
          { x with name := name, enabled := enabled,
                   spec := sanitizePipelineSpecDict spec,
                   version := x.version + 1, updatedAt := now }
          else x)
        (fun x => by by_cases h : x.id == pid <;> simp [h]) pid
      simp only [pipelineGet]
      rw [this, hp2]
      have hpid2 : p.id = pid := by simpa using hpid
      simp [hpid2]
    · intro q hq
      have := find?_map_preserving s.pipelines
        (fun x => if x.id == pid then
          { x with name := name, enabled := enabled,
                   spec := sanitizePipelineSpecDict spec,
                   version := x.version + 1, updatedAt := now }
          else x)
        (fun x => by by_cases h : x.id == pid <;> simp [h]) q
      simp only [pipelineGet]
      rw [this]
      cases hfq : s.pipelines.find? (fun x => x.id == q) with
      | none => rfl
      | some x =>
        have hxq : (x.id == q) = true :=
          List.find?_some (p := fun y : PipelineRow => y.id == q) hfq
        have hxpid : (x.id == pid) = false := by
          simp only [beq_iff_eq] at hxq ⊢
          simp [hxq, hq]
        simp only [Option.map]
        simp [hxpid]
  · intro hp
    constructor
    · simp [updatePipeline, hp]
    · simp [step, updatePipeline, hp, Except.toOption]

/-- Witness for C7: one stored pipeline, updated with identical fields. -/
theorem update_pipeline_contract_witness :
    pipelineGet ⟨[], [⟨0, "p1", true, 1, [], 0, 0⟩], [], 1⟩ 0 =
      some ⟨0, "p1", true, 1, [], 0, 0⟩ ∧
    ∃ s2, updatePipeline ⟨[], [⟨0, "p1", true, 1, [], 0, 0⟩], [], 1⟩ 0 "p1" true [] 5 =
        .ok s2 ∧
      pipelineGet s2 0 = some ⟨0, "p1", true, 2, [], 0, 5⟩ ∧
      ∀ q, q ≠ 0 → pipelineGet s2 q =
        pipelineGet ⟨[], [⟨0, "p1", true, 1, [], 0, 0⟩], [], 1⟩ q :=
  ⟨rfl,
   (update_pipeline_contract ⟨[], [⟨0, "p1", true, 1, [], 0, 0⟩], [], 1⟩
      0 "p1" true [] 5).1 ⟨0, "p1", true, 1, [], 0, 0⟩ rfl⟩

/-! ## C6: create_assignment idempotence and NotFound -/

/-- If nothing in the first list matches, searching the concatenation
searches the second list. -/
theorem find?_append_none {α : Type} (p : α → Bool) (l1 l2 : List α)
    (h : l1.find? p = none) : (l1 ++ l2).find? p = l2.find? p := by
  induction l1 with
  | nil => rfl
  | cons a rest ih =>
    by_cases hp : p a
    · rw [List.find?_cons_of_pos _ hp] at h
      cases h
    · rw [List.find?_cons_of_neg _ hp] at h
      rw [List.cons_append, List.find?_cons_of_neg _ hp, ih h]

/-- C6: when agent and pipeline both exist, `create_assignment` returns
an id, and repeating the call returns the same id with the state
unchanged (no new row); when either is absent it fails with NotFound
(404) and the state is unchanged. -/
theorem create_assignment_contract (s : CPState) (aid region : String)
    (pid : Nat) (now now2 : Nat) :
    (agentGet s aid ≠ none → pipelineGet s pid ≠ none →
      ∃ i s1, createAssignment s aid region pid now = .ok (i, s1) ∧
        createAssignment s1 aid region pid now2 = .ok (i, s1)) ∧
    (agentGet s aid = none →
      createAssignment s aid region pid now = .error "agent_not_found" ∧
      step s (.assign aid region pid now) = s) ∧
    (agentGet s aid ≠ none → pipelineGet s pid = none →
      createAssignment s aid region pid now = .error "pipeline_not_found" ∧
      step s (.assign aid region pid now) = s) := by
  refine ⟨?_, ?_, ?_⟩
  · intro ha hp
    have ha2 : (agentGet s aid).isNone = false := by
      cases h : agentGet s aid with
      | none => exact absurd h ha
      | some _ => rfl
    have hp2 : (pipelineGet s pid).isNone = false := by
      cases h : pipelineGet s pid with
      | none => exact absurd h hp
      | some _ => rfl
    cases hex : s.assignments.find? (fun x =>
        x.agentId == aid && x.region == region && x.pipelineId == pid) with
    | some ex =>
      refine ⟨ex.id, s, ?_, ?_⟩ <;> simp [createAssignment, ha2, hp2, hex]
    | none =>
      refine ⟨s.nextId,
        { s with
          assignments := s.assignments ++ [(⟨s.nextId, aid, region, pid, now⟩ : AssignmentRow)],
          nextId := s.nextId + 1 }, ?_, ?_⟩
      · simp [createAssignment, ha2, hp2, hex]
      · have hagents : agentGet
            { s with
              assignments := s.assignments ++
                [(⟨s.nextId, aid, region, pid, now⟩ : AssignmentRow)],
              nextId := s.nextId + 1 } aid = agentGet s aid := rfl
        have hpipes : pipelineGet
            { s with
              assignments := s.assignments ++
                [(⟨s.nextId, aid, region, pid, now⟩ : AssignmentRow)],
              nextId := s.nextId + 1 } pid = pipelineGet s pid := rfl
        have hfind : (s.assignments ++
              [(⟨s.nextId, aid, region, pid, now⟩ : AssignmentRow)]).find?
            (fun x => x.agentId == aid && x.region == region && x.pipelineId == pid) =
            some (⟨s.nextId, aid, region, pid, now⟩ : AssignmentRow) := by
          rw [find?_append_none _ _ _ hex]
          simp
        simp only [createAssignment, hagents, hpipes, ha2, hp2, hfind,
          Bool.false_eq_true, if_false]
  · intro ha
    constructor
    · simp [createAssignment, ha]
    · simp [step, createAssignment, ha]
  · intro ha hp
    have ha2 : (agentGet s aid).isNone = false := by
      cases h : agentGet s aid with
      | none => exact absurd h ha
      | some _ => rfl
    constructor
    · simp [createAssignment, ha2, hp]
    · simp [step, createAssignment, ha2, hp]

/-- Witness for C6: a state holding agent `a1` and pipeline `0`; the
repeated call returns the same assignment id and state. -/
theorem create_assignment_contract_witness :
    agentGet ⟨[⟨"a1", "eu", none, none, [], 0, 0⟩],
      [⟨0, "p1", true, 1, [], 0, 0⟩], [], 1⟩ "a1" ≠ none ∧
    pipelineGet ⟨[⟨"a1", "eu", none, none, [], 0, 0⟩],
      [⟨0, "p1", true, 1, [], 0, 0⟩], [], 1⟩ 0 ≠ none ∧
    ∃ i s1, createAssignment ⟨[⟨"a1", "eu", none, none, [], 0, 0⟩],
        [⟨0, "p1", true, 1, [], 0, 0⟩], [], 1⟩ "a1" "eu" 0 7 = .ok (i, s1) ∧
      createAssignment s1 "a1" "eu" 0 9 = .ok (i, s1) :=
  ⟨fun h => Option.noConfusion h, fun h => Option.noConfusion h,
   (create_assignment_contract ⟨[⟨"a1", "eu", none, none, [], 0, 0⟩],
      [⟨0, "p1", true, 1, [], 0, 0⟩], [], 1⟩ "a1" "eu" 0 7 9).1
     (fun h => Option.noConfusion h) (fun h => Option.noConfusion h)⟩

/-! ## C5: spec normalization round-trip -/

/-- C5 counterexample: normalize-then-sanitize is not idempotent on every
input mapping.  A triple-wrapped spec sanitizes to a still-wrapped
mapping, which a second application unwraps further. -/
theorem sanitize_not_idempotent_cex :
    sanitizePipelineSpecDict (sanitizePipelineSpecDict
        [("spec", .pydict [("spec", .pydict [("spec",
          .pydict [("foo", .pyint 1)])])])]) ≠
      sanitizePipelineSpecDict
        [("spec", .pydict [("spec", .pydict [("spec",
          .pydict [("foo", .pyint 1)])])])] :=
  fun h => absurd (congrArg (fun l : PyDict => l.map Prod.fst) h) (by decide)

/-- Searching a filtered list fails when the predicate only matches
elements the filter discards. -/
theorem find?_filter_none {α : Type} (p q : α → Bool) (l : List α)
    (h : ∀ x, p x = true → q x = false) : (l.filter q).find? p = none := by
  induction l with
  | nil => rfl
  | cons a rest ih =>
    by_cases hq : q a = true
    · rw [List.filter_cons_of_pos hq]
      have hp : ¬ p a = true := fun hp => by rw [h a hp] at hq; cases hq
      rw [List.find?_cons_of_neg _ hp]
      exact ih
    · rw [List.filter_cons_of_neg (by simpa using hq)]
      exact ih

/-- Searching a filtered list agrees with searching the original when
the predicate only matches elements the filter keeps. -/
theorem find?_filter_comm {α : Type} (p q : α → Bool) (l : List α)
    (h : ∀ x, p x = true → q x = true) : (l.filter q).find? p = l.find? p := by
  induction l with
  | nil => rfl
  | cons a rest ih =>
    by_cases hp : p a = true
    · rw [List.filter_cons_of_pos (h a hp), List.find?_cons_of_pos _ hp,
        List.find?_cons_of_pos _ hp]
    · by_cases hq : q a = true
      · rw [List.filter_cons_of_pos hq, List.find?_cons_of_neg _ hp,
          List.find?_cons_of_neg _ hp]
        exact ih
      · rw [List.filter_cons_of_neg (by simpa using hq), List.find?_cons_of_neg _ hp]
        exact ih

/-- C5 amended: normalize-then-sanitize strips exactly
`{pipeline_id, name, enabled, version}` from the top level of the
normalized spec (those keys are never in the output, no other key is
removed), the singly and doubly wrapped forms normalize to the same
inner canonical mapping as the unwrapped form, and the composition is
idempotent on every input whose sanitized form either looks canonical or
holds no dict under `spec` (equivalently: on which the unwrap loop stops
at once) — but not on every mapping, as the counterexample shows. -/
theorem sanitize_contract :
    (∀ d : PyDict, unwrapOnce (sanitizePipelineSpecDict d) = none →
      sanitizePipelineSpecDict (sanitizePipelineSpecDict d) =
        sanitizePipelineSpecDict d) ∧
    (∀ d : PyDict, ∀ k, k ∈ strippedKeys →
      pyGet (sanitizePipelineSpecDict d) k = none) ∧
    (∀ d : PyDict, ∀ k, k ∉ strippedKeys →
      pyGet (sanitizePipelineSpecDict d) k =
        pyGet (normalizePipelineSpecDict d) k) ∧
    (∀ d : PyDict, looksCanonical d = true →
      normalizePipelineSpecDict d = d ∧
      normalizePipelineSpecDict [("spec", .pydict d)] = d ∧
      normalizePipelineSpecDict [("spec", .pydict [("spec", .pydict d)])] = d) := by
  have hnorm : ∀ d : PyDict, unwrapOnce d = none →
      normalizePipelineSpecDict d = d := by
    intro d h
    simp only [normalizePipelineSpecDict, h]
  refine ⟨?_, ?_, ?_, ?_⟩
  · intro d hu
    simp only [sanitizePipelineSpecDict] at hu ⊢
    rw [hnorm _ hu, List.filter_filter]
    simp
  · intro d k hk
    simp only [sanitizePipelineSpecDict, pyGet]
    rw [find?_filter_none _ _ _ (fun x hx => ?_)]
    · rfl
    · have : x.1 = k := by simpa using hx
      simp [this, hk]
  · intro d k hk
    simp only [sanitizePipelineSpecDict, pyGet]
    rw [find?_filter_comm _ _ _ (fun x hx => ?_)]
    have : x.1 = k := by simpa using hx
    simp [this, hk]
  · intro d hc
    have hu : unwrapOnce d = none := by simp [unwrapOnce, hc]
    refine ⟨hnorm d hu, ?_, rfl⟩
    have hstep : normalizePipelineSpecDict [("spec", .pydict d)] =
        match unwrapOnce d with | none => d | some d2 => d2 := rfl
    rw [hstep, hu]

/-- Witness for C5 at a canonical-plus-metadata spec. -/
theorem sanitize_contract_witness :
    unwrapOnce (sanitizePipelineSpecDict
      [("source", .pyint 1), ("name", .pystr "n")]) = none ∧
    sanitizePipelineSpecDict (sanitizePipelineSpecDict
        [("source", .pyint 1), ("name", .pystr "n")]) =
      sanitizePipelineSpecDict [("source", .pyint 1), ("name", .pystr "n")] ∧
    "name" ∈ strippedKeys ∧
    pyGet (sanitizePipelineSpecDict
      [("source", .pyint 1), ("name", .pystr "n")]) "name" = none ∧
    looksCanonical [("source", .pyint 1)] = true ∧
    normalizePipelineSpecDict
      [("spec", .pydict [("source", .pyint 1)])] = [("source", .pyint 1)] :=
  ⟨rfl,
   sanitize_contract.1 [("source", .pyint 1), ("name", .pystr "n")] rfl,
   by decide,
   sanitize_contract.2.1 [("source", .pyint 1), ("name", .pystr "n")] "name" (by decide),
   rfl,
   (sanitize_contract.2.2.2 [("source", .pyint 1)] rfl).2.1⟩

/-! ## C1: reconciler behavior on a revision change -/

/-- A hit in the first list is a hit in the concatenation. -/
theorem find?_append_some {α : Type} (p : α → Bool) (l1 l2 : List α) (a : α)
    (h : l1.find? p = some a) : (l1 ++ l2).find? p = some a := by
  induction l1 with
  | nil => cases h
  | cons x rest ih =>
    by_cases hp : p x = true
    · rw [List.find?_cons_of_pos _ hp] at h
      rw [List.cons_append, List.find?_cons_of_pos _ hp]
      exact h
    · rw [List.find?_cons_of_neg _ hp] at h
      rw [List.cons_append, List.find?_cons_of_neg _ hp]
      exact ih h

/-- A miss survives filtering. -/
theorem find?_filter_sub {α : Type} (p q : α → Bool) (l : List α)
    (h : l.find? p = none) : (l.filter q).find? p = none := by
  induction l with
  | nil => rfl
  | cons a rest ih =>
    by_cases hp : p a = true
    · rw [List.find?_cons_of_pos _ hp] at h
      cases h
    · rw [List.find?_cons_of_neg _ hp] at h
      by_cases hq : q a = true
      · rw [List.filter_cons_of_pos hq, List.find?_cons_of_neg _ hp]
        exact ih h
      · rw [List.filter_cons_of_neg (by simpa using hq)]
        exact ih h

/-- Key membership is lookup success. -/
theorem assocHas_isSome {α : Type} (d : List (Nat × α)) (k : Nat) :
    assocHas d k = (assocGet d k).isSome := by
  induction d with
  | nil => rfl
  | cons kv rest ih =>
    simp only [assocHas, assocGet] at ih ⊢
    by_cases h : (kv.1 == k) = true
    · rw [List.any_cons, h,
        List.find?_cons_of_pos (p := fun kv : Nat × α => kv.1 == k) _ h]
      rfl
    · rw [List.any_cons,
        List.find?_cons_of_neg (p := fun kv : Nat × α => kv.1 == k) _ h]
      simp only [h, Bool.false_or]
      exact ih

/-- Key lookup commutes with a value-only map. -/
theorem find?_map_fst {α β : Type} (l : List (Nat × α)) (g : α → β) (k : Nat) :
    ((l.map (fun kv => (kv.1, g kv.2))).find? (fun kv => kv.1 == k)) =
      (l.find? (fun kv => kv.1 == k)).map (fun kv => (kv.1, g kv.2)) := by
  induction l with
  | nil => rfl
  | cons kv rest ih =>
    rw [List.map_cons]
    by_cases h : (kv.1 == k) = true
    · rw [List.find?_cons_of_pos (p := fun kv : Nat × β => kv.1 == k) _ h,
        List.find?_cons_of_pos (p := fun kv : Nat × α => kv.1 == k) _ h]
      rfl
    · rw [List.find?_cons_of_neg (p := fun kv : Nat × β => kv.1 == k) _ h,
        List.find?_cons_of_neg (p := fun kv : Nat × α => kv.1 == k) _ h, ih]

/-- The enabled pipeline spec: file-tail source, raw processor, file
destination — the old revision used by the C1 scenario. -/
def oldSpecC1 : PipelineSpecV :=
  ⟨7, "p-old", true, ⟨"file_tail", []⟩, ⟨"raw", []⟩, ⟨"file", []⟩, 1, 1⟩

/-- The same pipeline after an update: revision 2 with a different
name and batch size. -/
def newSpecC1 : PipelineSpecV :=
  ⟨7, "p-new", true, ⟨"file_tail", []⟩, ⟨"raw", []⟩, ⟨"file", []⟩, 2, 1⟩

/-- C1 counterexample: an assignments response with a fresh etag whose
DTO for the already-running pipeline 7 differs in revision (2 instead of
1) and content, yet `_apply_assignments` keeps the runner built from the
old spec — it neither stops the old runner nor builds one from the new
DTO. -/
theorem reconcile_no_restart_cex :
    (some "e1" : Option String) ≠ some "e2" ∧
    oldSpecC1 ≠ newSpecC1 ∧
    (applyAssignments ⟨some "e1", [(7, mkRunner oldSpecC1)]⟩
        ⟨"e2", [⟨1, "a1", "eu", newSpecC1, 2, 5⟩]⟩).pipelines =
      [(7, mkRunner oldSpecC1)] ∧
    mkRunner oldSpecC1 ≠ mkRunner newSpecC1 :=
  ⟨by decide,
   fun h => absurd (congrArg PipelineSpecV.name h) (by decide),
   rfl,
   fun h => absurd (congrArg (fun r => r.spec.name) h) (by decide)⟩

/-- C1 amended: when the etag differs, `_apply_assignments` records the
new etag and afterwards the runner map holds, for each pipeline id:
nothing if the id is not among the enabled DTOs; the previously running
runner unchanged if it was running (even when the new DTO differs in
revision or content); and a runner freshly built from the new DTO only
if the id was not running. -/
theorem apply_assignments_contract (st : AgentSt) (resp : AssignmentsRespA)
    (h : ¬ st.etag = some resp.etag) :
    (applyAssignments st resp).etag = some resp.etag ∧
    ∀ pid,
      assocGet (applyAssignments st resp).pipelines pid =
        match assocGet (buildNewSpecs resp.assignments) pid with
        | none => none
        | some spec =>
          match assocGet st.pipelines pid with
          | some r => some r
          | none => some (mkRunner spec) := by
  have hbeq : (st.etag == some resp.etag) = false := beq_eq_false_iff_ne.mpr h
  constructor
  · simp [applyAssignments, hbeq]
  · intro pid
    simp only [applyAssignments, hbeq, Bool.false_eq_true, if_false]
    cases hnew : assocGet (buildNewSpecs resp.assignments) pid with
    | none =>
      have hnofind : (buildNewSpecs resp.assignments).find?
          (fun kv => kv.1 == pid) = none := by
        simp only [assocGet] at hnew
        cases hf : (buildNewSpecs resp.assignments).find? (fun kv => kv.1 == pid) with
        | none => rfl
        | some kv => rw [hf] at hnew; cases hnew
      have hkept : (st.pipelines.filter
          (fun pr => assocHas (buildNewSpecs resp.assignments) pr.1)).find?
          (fun kv => kv.1 == pid) = none := by
        apply find?_filter_none
        intro x hx
        have hx1 : x.1 = pid := by simpa using hx
        rw [hx1, assocHas_isSome, hnew]
        rfl
      have hadded : (((buildNewSpecs resp.assignments).filter
          (fun kv => !(assocHas (st.pipelines.filter
            (fun pr => assocHas (buildNewSpecs resp.assignments) pr.1)) kv.1))).map
          (fun kv => (kv.1, mkRunner kv.2))).find? (fun kv => kv.1 == pid) = none := by
        rw [find?_map_fst]
        rw [find?_filter_sub _ _ _ hnofind]
        rfl
      simp only [assocGet]
      rw [find?_append_none _ _ _ hkept, hadded]
      rfl
    | some spec =>
      cases hst : assocGet st.pipelines pid with
      | some r =>
        have hstf : st.pipelines.find? (fun kv => kv.1 == pid) =
            some (pid, r) := by
          simp only [assocGet] at hst
          cases hf : st.pipelines.find? (fun kv => kv.1 == pid) with
          | none => rw [hf] at hst; cases hst
          | some kv =>
            rw [hf] at hst
            have hk : (kv.1 == pid) = true :=
              List.find?_some (p := fun kv : Nat × RunnerModel => kv.1 == pid) hf
            have hk2 : kv.1 = pid := by simpa using hk
            have hv : kv.2 = r := by simpa using hst
            rw [show kv = (pid, r) by
              cases kv
              simp only at hk2 hv
              rw [hk2, hv]]
        have hkeptf : (st.pipelines.filter
            (fun pr => assocHas (buildNewSpecs resp.assignments) pr.1)).find?
            (fun kv => kv.1 == pid) = some (pid, r) := by
          rw [find?_filter_comm _ _ _ (fun x hx => ?_), hstf]
          have hx1 : x.1 = pid := by simpa using hx
          rw [hx1, assocHas_isSome, hnew]
          rfl
        simp only [assocGet]
        rw [find?_append_some _ _ _ _ hkeptf]
        rfl
      | none =>
        have hstf : st.pipelines.find? (fun kv => kv.1 == pid) = none := by
          simp only [assocGet] at hst
          cases hf : st.pipelines.find? (fun kv => kv.1 == pid) with
          | none => rfl
          | some kv => rw [hf] at hst; cases hst
        have hnewf : (buildNewSpecs resp.assignments).find?
            (fun kv => kv.1 == pid) = some (pid, spec) := by
          simp only [assocGet] at hnew
          cases hf : (buildNewSpecs resp.assignments).find? (fun kv => kv.1 == pid) with
          | none => rw [hf] at hnew; cases hnew
          | some kv =>
            rw [hf] at hnew
            have hk : (kv.1 == pid) = true :=
              List.find?_some (p := fun kv : Nat × PipelineSpecV => kv.1 == pid) hf
            have hk2 : kv.1 = pid := by simpa using hk
            have hv : kv.2 = spec := by simpa using hnew
            rw [show kv = (pid, spec) by
              cases kv
              simp only at hk2 hv
              rw [hk2, hv]]
        have hkeptf : (st.pipelines.filter
            (fun pr => assocHas (buildNewSpecs resp.assignments) pr.1)).find?
            (fun kv => kv.1 == pid) = none := find?_filter_sub _ _ _ hstf
        have haddedf : (((buildNewSpecs resp.assignments).filter
            (fun kv => !(assocHas (st.pipelines.filter
              (fun pr => assocHas (buildNewSpecs resp.assignments) pr.1)) kv.1))).map
            (fun kv => (kv.1, mkRunner kv.2))).find? (fun kv => kv.1 == pid) =
            some (pid, mkRunner spec) := by
          rw [find?_map_fst]
          rw [find?_filter_comm _ _ _ (fun x hx => ?_), hnewf]
          · rfl
          · have hx1 : x.1 = pid := by simpa using hx
            rw [hx1, assocHas_isSome]
            simp only [assocGet, hkeptf]
            rfl
        simp only [assocGet]
        rw [find?_append_none _ _ _ hkeptf, haddedf]
        rfl

/-- Witness for C1 (amended): the concrete scenario of the
counterexample, checked against the characterization. -/
theorem apply_assignments_contract_witness :
    ¬ (some "e1" : Option String) = some "e2" ∧
    ((applyAssignments ⟨some "e1", [(7, mkRunner oldSpecC1)]⟩
        ⟨"e2", [⟨1, "a1", "eu", newSpecC1, 2, 5⟩]⟩).etag = some "e2" ∧
     ∀ pid,
       assocGet (applyAssignments ⟨some "e1", [(7, mkRunner oldSpecC1)]⟩
           ⟨"e2", [⟨1, "a1", "eu", newSpecC1, 2, 5⟩]⟩).pipelines pid =
         match assocGet (buildNewSpecs [⟨1, "a1", "eu", newSpecC1, 2, 5⟩]) pid with
         | none => none
         | some spec =>
           match assocGet ([(7, mkRunner oldSpecC1)] : List (Nat × RunnerModel)) pid with
           | some r => some r
           | none => some (mkRunner spec)) :=
  ⟨by decide,
   apply_assignments_contract ⟨some "e1", [(7, mkRunner oldSpecC1)]⟩
     ⟨"e2", [⟨1, "a1", "eu", newSpecC1, 2, 5⟩]⟩ (by decide)⟩

/-! ## C9: emitted events and non-empty raw -/

/-- C9 counterexample: the HTTP listener's JSON-object branch accepts
`{"raw": " "}` and emits an event whose raw string is empty — the dict
branch strips the `raw` field without checking the result for
emptiness. -/
theorem http_listener_empty_raw_cex :
    ((eventFromItem 0 (.pydict [("raw", .pystr " ")]) []).map Event.raw) =
      some "" := rfl

/-- The compact JSON dump of a dict is never the empty string. -/
theorem jsonDumps_dict_ne_empty (kvs : PyDict) : jsonDumps (.pydict kvs) ≠ "" := by
  intro h
  have hlen := congrArg String.length h
  simp only [jsonDumps, String.length_append] at hlen
  have h1 : ("\x7b" : String).length = 1 := rfl
  have h2 : ("\x7d" : String).length = 1 := rfl
  have h3 : ("" : String).length = 0 := rfl
  omega

/-- C9 amended: every event emitted by the file-tail poll, the syslog
receive loop, the HTTP listener's plain-text branch, and the HTTP
listener's JSON string / other-scalar branches has a non-empty raw
string; the JSON object (dict) branch is the one exception — an emitted
event can have an empty raw only when the item is a dict whose `raw`
field is a string that strips to empty. -/
theorem source_nonempty_raw_contract :
    (∀ ts : Nat, ∀ lines : List String, ∀ n : Nat, ∀ e ∈ fileTailPoll ts lines n,
      e.raw ≠ "") ∧
    (∀ ts : Nat, ∀ s r : String, ∀ e,
      syslogDatagramEvent ts s r = some e → e.raw ≠ "") ∧
    (∀ ts : Nat, ∀ body : String, ∀ meta : PyDict, ∀ e,
      plainTextEvent ts body meta = some e → e.raw ≠ "") ∧
    (∀ ts : Nat, ∀ item : PyVal, ∀ meta : PyDict, ∀ e,
      eventFromItem ts item meta = some e → e.raw = "" →
      ∃ d v, item = .pydict d ∧ pyGet d "raw" = some (.pystr v) ∧
        pyStrip v = "") := by
  refine ⟨?_, ?_, ?_, ?_⟩
  · intro ts lines
    induction lines with
    | nil =>
      intro n e he
      cases n <;> simp [fileTailPoll] at he
    | cons line rest ih =>
      intro n e he
      cases n with
      | zero => simp [fileTailPoll] at he
      | succ m =>
        simp only [fileTailPoll] at he
        by_cases hl : (rstripCRLF line == "") = true
        · rw [if_pos hl] at he
          exact ih (m + 1) e he
        · rw [if_neg hl] at he
          rcases List.mem_cons.mp he with rfl | hmem
          · simpa using hl
          · exact ih m e hmem
  · intro ts s r e he
    simp only [syslogDatagramEvent] at he
    by_cases hs : (pyStrip s == "") = true
    · rw [if_pos hs] at he
      cases he
    · rw [if_neg hs] at he
      cases he
      simpa using hs
  · intro ts body meta e he
    simp only [plainTextEvent] at he
    by_cases hs : (pyStrip body == "") = true
    · rw [if_pos hs] at he
      cases he
    · rw [if_neg hs] at he
      cases he
      simpa using hs
  · intro ts item meta e he hraw
    cases item with
    | pydict d =>
      simp only [eventFromItem] at he
      cases he
      cases hget : pyGet d "raw" with
      | some v =>
        cases v with
        | pystr w =>
          refine ⟨d, w, rfl, hget, ?_⟩
          rw [hget] at hraw
          exact hraw
        | pynull => rw [hget] at hraw; exact absurd hraw (jsonDumps_dict_ne_empty d)
        | pybool b => rw [hget] at hraw; exact absurd hraw (jsonDumps_dict_ne_empty d)
        | pyint n => rw [hget] at hraw; exact absurd hraw (jsonDumps_dict_ne_empty d)
        | pylist xs => rw [hget] at hraw; exact absurd hraw (jsonDumps_dict_ne_empty d)
        | pydict dd => rw [hget] at hraw; exact absurd hraw (jsonDumps_dict_ne_empty d)
      | none => rw [hget] at hraw; exact absurd hraw (jsonDumps_dict_ne_empty d)
    | pystr s =>
      simp only [eventFromItem] at he
      by_cases hs : (pyStrip s == "") = true
      · rw [if_pos hs] at he; cases he
      · rw [if_neg hs] at he
        cases he
        exact absurd hraw (by simpa using hs)
    | pynull =>
      simp only [eventFromItem] at he
      by_cases hs : (pyStrip (pyStr .pynull) == "") = true
      · rw [if_pos hs] at he; cases he
      · rw [if_neg hs] at he
        cases he
        exact absurd hraw (by simpa using hs)
    | pybool b =>
      simp only [eventFromItem] at he
      by_cases hs : (pyStrip (pyStr (.pybool b)) == "") = true
      · rw [if_pos hs] at he; cases he
      · rw [if_neg hs] at he
        cases he
        exact absurd hraw (by simpa using hs)
    | pyint n =>
      simp only [eventFromItem] at he
      by_cases hs : (pyStrip (pyStr (.pyint n)) == "") = true
      · rw [if_pos hs] at he; cases he
      · rw [if_neg hs] at he
        cases he
        exact absurd hraw (by simpa using hs)
    | pylist xs =>
      simp only [eventFromItem] at he
      by_cases hs : (pyStrip (pyStr (.pylist xs)) == "") = true
      · rw [if_pos hs] at he; cases he
      · rw [if_neg hs] at he
        cases he
        exact absurd hraw (by simpa using hs)

/-- Witness for C9: a file-tail line and a syslog datagram, both
emitting events with non-empty raw. -/
theorem source_nonempty_raw_contract_witness :
    (⟨0, "hello", [], []⟩ : Event) ∈ fileTailPoll 0 ["hello\r\n"] 10 ∧
    (⟨0, "hello", [], []⟩ : Event).raw ≠ "" ∧
    syslogDatagramEvent 0 " m " "1.2.3.4:514" =
      some ⟨0, "m", [],
        [("source", .pystr "syslog_udp"), ("remote_addr", .pystr "1.2.3.4:514")]⟩ ∧
    (⟨0, "m", [],
      [("source", .pystr "syslog_udp"),
       ("remote_addr", .pystr "1.2.3.4:514")]⟩ : Event).raw ≠ "" :=
  ⟨List.mem_singleton.mpr rfl,
   source_nonempty_raw_contract.1 0 ["hello\r\n"] 10 _ (List.mem_singleton.mpr rfl),
   rfl,
   source_nonempty_raw_contract.2.1 0 " m " "1.2.3.4:514" _ rfl⟩

/-! ## C3: runner counter accounting -/

/-- The conservation property of the runner counters: every received
event is exactly one of sent, buffered or inflight.  The runner keeps no
drop counter — events are only dropped by sources before they are
received. -/
def counterBalanced (st : RunnerState) : Prop :=
  st.sentEvents + st.buffer.length + st.inflight.length = st.received

/-- A send attempt preserves the counter balance. -/
theorem trySend_balanced (env : TickEnv) (st : RunnerState)
    (h : counterBalanced st) : counterBalanced (trySendInflight env st) := by
  simp only [counterBalanced] at h ⊢
  cases hin : st.inflight with
  | nil => simpa [trySendInflight, hin] using h
  | cons a l =>
    cases hr : env.sendResult with
    | ok u => simp only [trySendInflight, hin, hr]; simp; rw [hin] at h; simp at h; omega
    | error e => simpa [trySendInflight, hin, hr] using h

/-- A flush with the raw (identity) processor preserves the counter
balance when nothing is inflight. -/
theorem flush_raw_balanced (cfg : RunnerCfg) (env : TickEnv) (st : RunnerState)
    (h : counterBalanced st) (hin : st.inflight = []) :
    counterBalanced (flushIfNeeded rawProcess cfg env st) := by
  simp only [flushIfNeeded]
  by_cases hb : st.buffer.isEmpty = true
  · simp [hb, h]
  · simp only [hb, Bool.false_eq_true, if_false]
    by_cases hsmall : (st.buffer.length < cfg.batchMaxEvents &&
        decide (env.flushNow - st.lastFlush < cfg.batchMaxSeconds)) = true
    · simp [hsmall, h]
    · simp only [hsmall, Bool.false_eq_true, if_false, rawProcess]
      apply trySend_balanced
      simp only [counterBalanced] at h ⊢
      simp only [counterBalanced, hin, List.length_nil, List.length_map] at h ⊢
      omega

/-- One tick with the raw processor preserves the counter balance. -/
theorem tick_raw_balanced (cfg : RunnerCfg) (env : TickEnv) (st : RunnerState)
    (h : counterBalanced st) : counterBalanced (tick rawProcess cfg env st) := by
  simp only [tick]
  by_cases hen : (!cfg.enabled) = true
  · simp [hen, h]
  · simp only [hen, Bool.false_eq_true, if_false]
    by_cases hwait : (!st.inflight.isEmpty && decide (env.now < st.nextSendAt)) = true
    · simp [hwait, h]
    · simp only [hwait, Bool.false_eq_true, if_false]
      by_cases hinf : (!st.inflight.isEmpty) = true
      · simp only [hinf, if_true]
        exact trySend_balanced env st h
      · simp only [hinf, Bool.false_eq_true, if_false]
        have hin : st.inflight = [] := by
          simpa [List.isEmpty_iff] using hinf
        by_cases hp : env.pulled.isEmpty = true
        · simp only [hp, if_true]
          exact flush_raw_balanced cfg env st h hin
        · simp only [hp, Bool.false_eq_true, if_false]
          apply flush_raw_balanced
          · simp only [counterBalanced] at h ⊢
            simp only [List.length_append]
            omega
          · simpa using hin

/-- C3 amended: with the raw processor, after any sequence of ticks from
a fresh runner, `sent_events ≤ received` and
`sent_events + len(buffer) + len(inflight) ≥ received` (the runner keeps
no drop counter; drops happen in sources before events are received).
The indexed processor does not satisfy the claim: it can emit more
events than it consumed (multi-doc responses, see the counterexample)
and an indexer failure during a flush discards the cut batch. -/
theorem runner_counters_conservation (cfg : RunnerCfg) (envs : List TickEnv)
    (t0 : ℚ) :
    (runTicks rawProcess cfg envs (initRunner t0)).sentEvents ≤
      (runTicks rawProcess cfg envs (initRunner t0)).received ∧
    (runTicks rawProcess cfg envs (initRunner t0)).sentEvents +
        (runTicks rawProcess cfg envs (initRunner t0)).buffer.length +
        (runTicks rawProcess cfg envs (initRunner t0)).inflight.length ≥
      (runTicks rawProcess cfg envs (initRunner t0)).received := by
  have hfold : ∀ (l : List TickEnv) (st : RunnerState), counterBalanced st →
      counterBalanced (l.foldl (fun s e => tick rawProcess cfg e s) st) := by
    intro l
    induction l with
    | nil => exact fun st h => h
    | cons env rest ih =>
      intro st h
      rw [List.foldl_cons]
      exact ih _ (tick_raw_balanced cfg env st h)
  have hbal : counterBalanced (runTicks rawProcess cfg envs (initRunner t0)) :=
    hfold envs (initRunner t0) rfl
  simp only [counterBalanced] at hbal
  omega

/-- C3 counterexample: an indexed-processor runner whose single received
event normalizes to a two-doc response; after one tick the counters
violate `sent_events ≤ received` (2 sent, 1 received). -/
theorem indexed_overcount_cex :
    (runTicks
        (indexedProcess [.pydict [("docs", .pylist [.pydict [], .pydict []])]])
        ⟨"p", "p", true, 1, 1, []⟩
        [⟨0, [⟨0, "x", [], []⟩], 0, 0, .ok (), 0, 0, 0⟩]
        (initRunner 0)).sentEvents = 2 ∧
    (runTicks
        (indexedProcess [.pydict [("docs", .pylist [.pydict [], .pydict []])]])
        ⟨"p", "p", true, 1, 1, []⟩
        [⟨0, [⟨0, "x", [], []⟩], 0, 0, .ok (), 0, 0, 0⟩]
        (initRunner 0)).received = 1 := by
  constructor <;> rfl

/-! ## C10: http_listener sources are rejected by the agent-facing DTO -/

/-- A successful DTO build means every joined row's spec validated. -/
theorem buildDTOs_ok_member (l : List (AssignmentRow × PipelineRow))
    (res : List AssignmentDTOV) (h : buildAssignmentDTOs l = .ok res) :
    ∀ ap ∈ l, ∃ ps, toPipelineSpec ap.2 = .ok ps := by
  induction l generalizing res with
  | nil =>
    intro ap hap
    cases hap
  | cons x rest ih =>
    intro ap hap
    cases hx : toPipelineSpec x.2 with
    | error e =>
      rw [buildAssignmentDTOs, hx] at h
      cases h
    | ok ps =>
      rcases List.mem_cons.mp hap with rfl | hmem
      · exact ⟨ps, hx⟩
      · simp only [buildAssignmentDTOs, hx] at h
        by_cases hv : x.2.version < 1
        · rw [if_pos hv] at h
          cases h
        · rw [if_neg hv] at h
          cases hrest : buildAssignmentDTOs rest with
          | error e2 => rw [hrest] at h; cases h
          | ok tail => exact ih tail hrest ap hmem

/-- C10: a stored pipeline whose spec names a source type outside
`{file_tail, syslog_udp}` (with both source and destination sections
present, e.g. an `http_listener` source) fails `_to_pipeline_spec` with
a pydantic validation error, so `get_assignments` fails for any agent
assigned that pipeline — even though the agent's own
`PipelineRunner._build_source` accepts `http_listener`. -/
theorem http_listener_source_rejected (s : CPState) (a r : String)
    (asg : AssignmentRow) (p : PipelineRow) (sd dd : PyDict) (t : String)
    (hmem : asg ∈ s.assignments) (ha : asg.agentId = a) (hr : asg.region = r)
    (hp : pipelineGet s asg.pipelineId = some p)
    (hag : (agentGet s a).isNone = false)
    (hsrc : pyGet (normalizePipelineSpecDict p.spec) "source" = some (.pydict sd))
    (hsd : sd ≠ [])
    (hdst : pyGet (normalizePipelineSpecDict p.spec) "destination" =
      some (.pydict dd))
    (hdd : dd ≠ [])
    (htype : pyGet sd "type" = some (.pystr t))
    (ht : sourceTypesAllowed.contains t = false) :
    toPipelineSpec p = .error "validation_error_source_type" ∧
    (∃ msg, getAssignmentsRes s a r = .error msg) ∧
    buildSource [("type", .pystr "http_listener"),
        ("options", .pydict [("port", .pyint 8080)])] =
      .ok (.httpListener "0.0.0.0" 8080 "/ingest" 50000) := by
  have hsdne : sd.isEmpty = false := by
    cases sd with
    | nil => exact absurd rfl hsd
    | cons a b => rfl
  have hddne : dd.isEmpty = false := by
    cases dd with
    | nil => exact absurd rfl hdd
    | cons a b => rfl
  have hdto : toPipelineSpec p = .error "validation_error_source_type" := by
    rw [toPipelineSpec]
    simp only [hsrc, hdst, specSection, pyTruthy, hsdne, hddne]
    simp only [Bool.not_false, if_true]
    simp only [asMapping]
    rw [mkPipelineSource, htype]
    have ht2 : ¬ t ∈ sourceTypesAllowed := by simpa using ht
    simp [ht2]
  refine ⟨hdto, ?_, rfl⟩
  have hjmem : (asg, p) ∈ joinRows s a r := by
    apply List.mem_filterMap.mpr
    refine ⟨asg, ?_, ?_⟩
    · apply List.mem_filter.mpr
      refine ⟨hmem, ?_⟩
      simp [ha, hr]
    · rw [hp]
      rfl
  cases hbuild : buildAssignmentDTOs (joinRows s a r) with
  | error e =>
    refine ⟨e, ?_⟩
    rw [getAssignmentsRes, hag]
    simp only [Bool.false_eq_true, if_false]
    rw [hbuild]
  | ok res =>
    rcases buildDTOs_ok_member _ _ hbuild (asg, p) hjmem with ⟨ps, hps⟩
    rw [hdto] at hps
    cases hps

/-- Witness for C10: one agent, one http_listener pipeline, one
assignment. -/
theorem http_listener_source_rejected_witness :
    ((⟨5, "a1", "eu", 0, 3⟩ : AssignmentRow) ∈
      (⟨[⟨"a1", "eu", none, none, [], 0, 0⟩],
        [⟨0, "p1", true, 1,
          [("source", .pydict [("type", .pystr "http_listener"),
            ("options", .pydict [("port", .pyint 8080)])]),
           ("destination", .pydict [("type", .pystr "file"),
            ("options", .pydict [("path", .pystr "/tmp/o")])])], 0, 0⟩],
        [⟨5, "a1", "eu", 0, 3⟩], 6⟩ : CPState).assignments) ∧
    toPipelineSpec ⟨0, "p1", true, 1,
      [("source", .pydict [("type", .pystr "http_listener"),
        ("options", .pydict [("port", .pyint 8080)])]),
       ("destination", .pydict [("type", .pystr "file"),
        ("options", .pydict [("path", .pystr "/tmp/o")])])], 0, 0⟩ =
      .error "validation_error_source_type" ∧
    ∃ msg, getAssignmentsRes
      ⟨[⟨"a1", "eu", none, none, [], 0, 0⟩],
        [⟨0, "p1", true, 1,
          [("source", .pydict [("type", .pystr "http_listener"),
            ("options", .pydict [("port", .pyint 8080)])]),
           ("destination", .pydict [("type", .pystr "file"),
            ("options", .pydict [("path", .pystr "/tmp/o")])])], 0, 0⟩],
        [⟨5, "a1", "eu", 0, 3⟩], 6⟩ "a1" "eu" = .error msg := by
  have h := http_listener_source_rejected
    ⟨[⟨"a1", "eu", none, none, [], 0, 0⟩],
      [⟨0, "p1", true, 1,
        [("source", .pydict [("type", .pystr "http_listener"),
          ("options", .pydict [("port", .pyint 8080)])]),
         ("destination", .pydict [("type", .pystr "file"),
          ("options", .pydict [("path", .pystr "/tmp/o")])])], 0, 0⟩],
      [⟨5, "a1", "eu", 0, 3⟩], 6⟩ "a1" "eu"
    ⟨5, "a1", "eu", 0, 3⟩
    ⟨0, "p1", true, 1,
      [("source", .pydict [("type", .pystr "http_listener"),
        ("options", .pydict [("port", .pyint 8080)])]),
       ("destination", .pydict [("type", .pystr "file"),
        ("options", .pydict [("path", .pystr "/tmp/o")])])], 0, 0⟩
    [("type", .pystr "http_listener"), ("options", .pydict [("port", .pyint 8080)])]
    [("type", .pystr "file"), ("options", .pydict [("path", .pystr "/tmp/o")])]
    "http_listener"
    (List.mem_singleton.mpr rfl) rfl rfl rfl rfl rfl
    (fun hc => List.noConfusion hc) rfl (fun hc => List.noConfusion hc) rfl rfl
  exact ⟨List.mem_singleton.mpr rfl, h.1, h.2.1⟩

/-! ## C2: the ETag tracks exactly the assignment set and versions

The invariants below hold of every state reachable from the empty
database: server-generated ids are unique and below the fresh-id
counter, assignment rows are immutable once created, and a pipeline's
version only grows — with `updated_at` (and everything else) frozen
while the version is unchanged, because `update_pipeline` bumps both
together. -/

/-- Well-formedness of a control-plane state: ids are below the fresh-id
counter and pairwise distinct. -/
def WF (s : CPState) : Prop :=
  (∀ p ∈ s.pipelines, p.id < s.nextId) ∧
  s.pipelines.Pairwise (fun p q => p.id ≠ q.id) ∧
  (∀ x ∈ s.assignments, x.id < s.nextId) ∧
  s.assignments.Pairwise (fun x y => x.id ≠ y.id)

/-- What one or more API calls preserve between a state and any later
state: the fresh-id counter grows, assignment rows with old ids are
original rows, and pipelines persist with nondecreasing versions, frozen
whenever the version is unchanged. -/
def TraceRel (s t : CPState) : Prop :=
  s.nextId ≤ t.nextId ∧
  (∀ y ∈ t.assignments, y.id < s.nextId → y ∈ s.assignments) ∧
  (∀ p ∈ s.pipelines, ∃ q ∈ t.pipelines, q.id = p.id ∧ p.version ≤ q.version ∧
    (q.version = p.version → q = p))

/-- The empty database is well-formed. -/
theorem WF_init : WF CPState.init :=
  ⟨fun p hp => absurd hp (List.not_mem_nil p),
   List.Pairwise.nil,
   fun x hx => absurd hx (List.not_mem_nil x),
   List.Pairwise.nil⟩

/-- `TraceRel` is reflexive. -/
theorem TraceRel_refl (s : CPState) : TraceRel s s :=
  ⟨le_refl _, fun y hy _ => hy,
   fun p hp => ⟨p, hp, rfl, le_refl _, fun _ => rfl⟩⟩

/-- `TraceRel` composes. -/
theorem TraceRel_trans {s u t : CPState} (h1 : TraceRel s u) (h2 : TraceRel u t) :
    TraceRel s t := by
  obtain ⟨hn1, hb1, hp1⟩ := h1
  obtain ⟨hn2, hb2, hp2⟩ := h2
  refine ⟨le_trans hn1 hn2, ?_, ?_⟩
  · intro y hy hid
    exact hb1 y (hb2 y hy (lt_of_lt_of_le hid hn1)) hid
  · intro p hp
    obtain ⟨q, hq, hqid, hqv, hqeq⟩ := hp1 p hp
    obtain ⟨q2, hq2, hq2id, hq2v, hq2eq⟩ := hp2 q hq
    refine ⟨q2, hq2, hq2id.trans hqid, le_trans hqv hq2v, ?_⟩
    intro hv
    have hqv2 : q.version = p.version := le_antisymm (by omega) hqv
    rw [hq2eq (by omega)]
    exact hqeq hqv2

/-- States agreeing on pipelines, assignments and the id counter are
interchangeable for `WF` and related by `TraceRel`. -/
theorem WF_TraceRel_of_eq (s t : CPState) (hp : t.pipelines = s.pipelines)
    (ha : t.assignments = s.assignments) (hn : t.nextId = s.nextId)
    (hWF : WF s) : WF t ∧ TraceRel s t := by
  obtain ⟨w1, w2, w3, w4⟩ := hWF
  constructor
  · exact ⟨by rw [hp, hn]; exact w1, by rw [hp]; exact w2,
      by rw [ha, hn]; exact w3, by rw [ha]; exact w4⟩
  · exact ⟨by rw [hn], by rw [ha]; exact fun y hy _ => hy,
      by rw [hp]; exact fun p hpm => ⟨p, hpm, rfl, le_refl _, fun _ => rfl⟩⟩

/-- Appending an assignment row carrying the fresh id preserves the
invariants. -/
theorem WF_TraceRel_assign_append (s : CPState) (row : AssignmentRow)
    (hWF : WF s) (hid : row.id = s.nextId) :
    WF { s with assignments := s.assignments ++ [row], nextId := s.nextId + 1 } ∧
    TraceRel s
      { s with assignments := s.assignments ++ [row], nextId := s.nextId + 1 } := by
  obtain ⟨w1, w2, w3, w4⟩ := hWF
  constructor
  · refine ⟨?_, w2, ?_, ?_⟩
    · intro p hp
      have := w1 p hp
      show p.id < s.nextId + 1
      omega
    · intro x hx
      show x.id < s.nextId + 1
      rcases List.mem_append.mp hx with hx | hx
      · have := w3 x hx
        omega
      · rcases List.mem_singleton.mp hx with rfl
        omega
    · show (s.assignments ++ [row]).Pairwise (fun x y => x.id ≠ y.id)
      rw [List.pairwise_append]
      refine ⟨w4, List.pairwise_singleton _ _, ?_⟩
      intro a ha b hb
      rcases List.mem_singleton.mp hb with rfl
      have := w3 a ha
      omega
  · refine ⟨by show s.nextId ≤ s.nextId + 1; omega, ?_, ?_⟩
    · intro y hy hlt
      rcases List.mem_append.mp hy with hy | hy
      · exact hy
      · rcases List.mem_singleton.mp hy with rfl
        omega
    · intro p hp
      exact ⟨p, hp, rfl, le_refl _, fun _ => rfl⟩

/-- Appending a pipeline row carrying the fresh id preserves the
invariants. -/
theorem WF_TraceRel_pipe_append (s : CPState) (row : PipelineRow)
    (hWF : WF s) (hid : row.id = s.nextId) :
    WF { s with pipelines := s.pipelines ++ [row], nextId := s.nextId + 1 } ∧
    TraceRel s
      { s with pipelines := s.pipelines ++ [row], nextId := s.nextId + 1 } := by
  obtain ⟨w1, w2, w3, w4⟩ := hWF
  constructor
  · refine ⟨?_, ?_, ?_, w4⟩
    · intro p hp
      show p.id < s.nextId + 1
      rcases List.mem_append.mp hp with hp | hp
      · have := w1 p hp
        omega
      · rcases List.mem_singleton.mp hp with rfl
        omega
    · show (s.pipelines ++ [row]).Pairwise (fun p q => p.id ≠ q.id)
      rw [List.pairwise_append]
      refine ⟨w2, List.pairwise_singleton _ _, ?_⟩
      intro a ha b hb
      rcases List.mem_singleton.mp hb with rfl
      have := w1 a ha
      omega
    · intro x hx
      have := w3 x hx
      show x.id < s.nextId + 1
      omega
  · refine ⟨by show s.nextId ≤ s.nextId + 1; omega, fun y hy _ => hy, ?_⟩
    intro p hp
    exact ⟨p, List.mem_append_left _ hp, rfl, le_refl _, fun _ => rfl⟩

/-- The in-place pipeline update of `update_pipeline` preserves the
invariants: ids are untouched and the version grows on exactly the
updated row. -/
theorem WF_TraceRel_pipe_update (s : CPState) (pid : Nat) (name : String)
    (enabled : Bool) (spec : PyDict) (now : Nat) (hWF : WF s) :
    WF { s with pipelines := s.pipelines.map (fun p =>
      if p.id == pid then
        { p with name := name, enabled := enabled,
                 spec := sanitizePipelineSpecDict spec,
                 version := p.version + 1, updatedAt := now }
      else p) } ∧
    TraceRel s { s with pipelines := s.pipelines.map (fun p =>
      if p.id == pid then
        { p with name := name, enabled := enabled,
                 spec := sanitizePipelineSpecDict spec,
                 version := p.version + 1, updatedAt := now }
      else p) } := by
  obtain ⟨w1, w2, w3, w4⟩ := hWF
  have hidf : ∀ p : PipelineRow,
      ((fun p : PipelineRow =>
        if p.id == pid then
          { p with name := name, enabled := enabled,
                   spec := sanitizePipelineSpecDict spec,
                   version := p.version + 1, updatedAt := now }
        else p) p).id = p.id := by
    intro p
    by_cases h : (p.id == pid) = true <;> simp [h]
  constructor
  · refine ⟨?_, ?_, w3, w4⟩
    · intro p hp
      rcases List.mem_map.mp hp with ⟨p0, hp0, rfl⟩
      show _ < s.nextId
      rw [hidf p0]
      exact w1 p0 hp0
    · refine List.Pairwise.map _ ?_ w2
      intro a b hab
      rw [hidf a, hidf b]
      exact hab
  · refine ⟨le_refl _, fun y hy _ => hy, ?_⟩
    intro p hp
    by_cases h : (p.id == pid) = true
    · have hm := List.mem_map_of_mem (fun p : PipelineRow =>
        if p.id == pid then
          { p with name := name, enabled := enabled,
                   spec := sanitizePipelineSpecDict spec,
                   version := p.version + 1, updatedAt := now }
        else p) hp
      exact ⟨{ p with name := name, enabled := enabled, spec := sanitizePipelineSpecDict spec, version := p.version + 1, updatedAt := now }, by simpa [h] using hm, rfl, Nat.le_succ p.version, fun hv => absurd hv (Nat.succ_ne_self p.version)⟩
    · refine ⟨p, ?_, rfl, le_refl _, fun _ => rfl⟩
      have := List.mem_map_of_mem (fun p : PipelineRow =>
        if p.id == pid then
          { p with name := name, enabled := enabled,
                   spec := sanitizePipelineSpecDict spec,
                   version := p.version + 1, updatedAt := now }
        else p) hp
      simpa [h] using this

/-- Filtering assignment rows preserves the invariants. -/
theorem WF_TraceRel_assign_filter (s : CPState) (q : AssignmentRow → Bool)
    (hWF : WF s) :
    WF { s with assignments := s.assignments.filter q } ∧
    TraceRel s { s with assignments := s.assignments.filter q } := by
  obtain ⟨w1, w2, w3, w4⟩ := hWF
  constructor
  · refine ⟨w1, w2, ?_, ?_⟩
    · intro x hx
      exact w3 x (List.mem_of_mem_filter hx)
    · exact List.Pairwise.sublist (List.filter_sublist _) w4
  · refine ⟨le_refl _, ?_, fun p hp => ⟨p, hp, rfl, le_refl _, fun _ => rfl⟩⟩
    intro y hy _
    exact List.mem_of_mem_filter hy

/-- Every single API call preserves well-formedness and satisfies the
trace relation. -/
theorem step_facts (s : CPState) (op : Op) (hWF : WF s) :
    WF (step s op) ∧ TraceRel s (step s op) := by
  cases op with
  | register aid region ap caps now =>
    refine WF_TraceRel_of_eq s _ ?_ ?_ ?_ hWF <;>
      cases hag : agentGet s aid <;> simp [step, registerAgent, hag]
  | heartbeat aid region ap caps now =>
    refine WF_TraceRel_of_eq s _ ?_ ?_ ?_ hWF <;>
      cases hag : agentGet s aid <;>
      simp [step, heartbeatAgent, hag, Except.toOption]
  | pull aid region now =>
    refine WF_TraceRel_of_eq s _ ?_ ?_ ?_ hWF <;>
      cases hres : getAssignmentsRes s aid region <;>
      cases hag : agentGet s aid <;>
      simp [step, touchAgent, hres, hag, Except.toOption]
  | createPipe name enabled spec now =>
    exact WF_TraceRel_pipe_append s
      ⟨s.nextId, name, enabled, 1, sanitizePipelineSpecDict spec, now, now⟩
      hWF rfl
  | updatePipe pid name enabled spec now =>
    cases hpg : pipelineGet s pid with
    | none =>
      refine WF_TraceRel_of_eq s _ ?_ ?_ ?_ hWF <;>
        simp [step, updatePipeline, hpg, Except.toOption]
    | some p0 =>
      have hstep : step s (.updatePipe pid name enabled spec now) =
          { s with pipelines := s.pipelines.map (fun p =>
            if p.id == pid then
              { p with name := name, enabled := enabled,
                       spec := sanitizePipelineSpecDict spec,
                       version := p.version + 1, updatedAt := now }
            else p) } := by
        simp [step, updatePipeline, hpg, Except.toOption]
      rw [hstep]
      exact WF_TraceRel_pipe_update s pid name enabled spec now hWF
  | assign aid region pid now =>
    by_cases hag : (agentGet s aid).isNone = true
    · refine WF_TraceRel_of_eq s _ ?_ ?_ ?_ hWF <;>
        simp [step, createAssignment, hag]
    · by_cases hpg : (pipelineGet s pid).isNone = true
      · refine WF_TraceRel_of_eq s _ ?_ ?_ ?_ hWF <;>
          simp [step, createAssignment, hag, hpg]
      · cases hex : s.assignments.find? (fun x =>
            x.agentId == aid && x.region == region && x.pipelineId == pid) with
        | some ex =>
          refine WF_TraceRel_of_eq s _ ?_ ?_ ?_ hWF <;>
            simp [step, createAssignment, hag, hpg, hex]
        | none =>
          have hstep : step s (.assign aid region pid now) =
              { s with
                assignments := s.assignments ++
                  [(⟨s.nextId, aid, region, pid, now⟩ : AssignmentRow)],
                nextId := s.nextId + 1 } := by
            simp [step, createAssignment, hag, hpg, hex]
          rw [hstep]
          exact WF_TraceRel_assign_append s ⟨s.nextId, aid, region, pid, now⟩ hWF rfl
  | unassign aid =>
    by_cases hany : s.assignments.any (fun x => x.id == aid) = true
    · have hstep : step s (.unassign aid) =
          { s with assignments := s.assignments.filter (fun x => !(x.id == aid)) } := by
        simp [step, deleteAssignment, hany, Except.toOption]
      rw [hstep]
      exact WF_TraceRel_assign_filter s _ hWF
    · refine WF_TraceRel_of_eq s _ ?_ ?_ ?_ hWF <;>
        simp [step, deleteAssignment, hany, Except.toOption]

/-- Any sequence of API calls preserves well-formedness and satisfies
the trace relation. -/
theorem runOps_facts (s : CPState) (ops : List Op) (hWF : WF s) :
    WF (runOps s ops) ∧ TraceRel s (runOps s ops) := by
  induction ops generalizing s with
  | nil => exact ⟨hWF, TraceRel_refl s⟩
  | cons op rest ih =>
    obtain ⟨hWF1, htr1⟩ := step_facts s op hWF
    obtain ⟨hWF2, htr2⟩ := ih (step s op) hWF1
    exact ⟨hWF2, TraceRel_trans htr1 htr2⟩

/-- Two lists with equal images under `f` have equal images under `g`,
provided `f`-agreement forces `g`-agreement on their members. -/
theorem map_eq_map_congr {α β γ : Type} (f : α → β) (g : α → γ)
    (l1 l2 : List α) (h : l1.map f = l2.map f)
    (hfg : ∀ x ∈ l1, ∀ y ∈ l2, f x = f y → g x = g y) :
    l1.map g = l2.map g := by
  induction l1 generalizing l2 with
  | nil =>
    cases l2 with
    | nil => rfl
    | cons b l => simp at h
  | cons x l1' ih =>
    cases l2 with
    | nil => simp at h
    | cons y l2' =>
      simp only [List.map_cons, List.cons.injEq] at h ⊢
      refine ⟨hfg x (List.mem_cons_self x l1') y (List.mem_cons_self y l2') h.1,
        ih l2' h.2 ?_⟩
      intro x2 hx2 y2 hy2
      exact hfg x2 (List.mem_cons_of_mem x hx2) y2 (List.mem_cons_of_mem y hy2)

/-- Membership in the joined rows of `get_assignments`. -/
theorem joinRows_mem (s : CPState) (a r : String) (x : AssignmentRow)
    (p : PipelineRow) (h : (x, p) ∈ joinRows s a r) :
    x ∈ s.assignments ∧ x.agentId = a ∧ x.region = r ∧
      pipelineGet s x.pipelineId = some p := by
  unfold joinRows assignmentRowsFor at h
  rcases List.mem_filterMap.mp h with ⟨x0, hx0, hmap⟩
  cases hg : pipelineGet s x0.pipelineId with
  | none => rw [hg] at hmap; cases hmap
  | some p0 =>
    rw [hg] at hmap
    have hx0x : x0 = x ∧ p0 = p := by
      have := Option.some.injEq (x0, p0) (x, p) ▸ hmap
      simp at hmap
      exact ⟨hmap.1, hmap.2⟩
    obtain ⟨rfl, rfl⟩ := hx0x
    have hfil := List.mem_filter.mp hx0
    have hpred := hfil.2
    simp only [Bool.and_eq_true, beq_iff_eq] at hpred
    exact ⟨hfil.1, hpred.1, hpred.2, hg⟩

/-- In a list pairwise distinct on an id projection, equal ids force
equal elements. -/
theorem mem_unique_of_pairwise_ne {α : Type} (f : α → Nat) (l : List α)
    (hpw : l.Pairwise (fun a b => f a ≠ f b)) (x y : α) (hx : x ∈ l)
    (hy : y ∈ l) (hid : f y = f x) : y = x := by
  by_contra hne
  have hsym : Symmetric (fun a b : α => f a ≠ f b) := fun a b hab => hab.symm
  exact (List.Pairwise.forall hsym hpw hy hx hne) hid

/-- Across a trace, an assignment row in the later state with the id of
a row of the earlier state is that very row. -/
theorem assignment_eq_of_id (s t : CPState) (hWFs : WF s) (htr : TraceRel s t)
    (x y : AssignmentRow) (hx : x ∈ s.assignments) (hy : y ∈ t.assignments)
    (hid : y.id = x.id) : y = x := by
  obtain ⟨w1, w2, w3, w4⟩ := hWFs
  obtain ⟨hn, hb, hp⟩ := htr
  have hy2 : y ∈ s.assignments := hb y hy (by rw [hid]; exact w3 x hx)
  exact mem_unique_of_pairwise_ne (fun z => z.id) s.assignments w4 x y hx hy2 hid

/-- Across a trace, the pipeline found for an id persists: same id,
version only grown, and identical whenever the version is unchanged. -/
theorem pipeline_lookup_persist (s t : CPState) (hWFt : WF t)
    (htr : TraceRel s t) (pid : Nat) (p : PipelineRow)
    (hp : pipelineGet s pid = some p) :
    ∃ q, pipelineGet t pid = some q ∧ q.id = p.id ∧ p.version ≤ q.version ∧
      (q.version = p.version → q = p) := by
  have hp2 : s.pipelines.find? (fun x => x.id == pid) = some p := hp
  have hpm : p ∈ s.pipelines := List.mem_of_find?_eq_some hp2
  have hpid : (p.id == pid) = true :=
    List.find?_some (p := fun x : PipelineRow => x.id == pid) hp2
  have hpid2 : p.id = pid := by simpa using hpid
  obtain ⟨q, hqm, hqid, hqv, hqeq⟩ := htr.2.2 p hpm
  cases hft : pipelineGet t pid with
  | none =>
    exfalso
    have hft2 : t.pipelines.find? (fun x => x.id == pid) = none := hft
    have := List.find?_eq_none.mp hft2 q hqm
    apply this
    simp [hqid, hpid2]
  | some q2 =>
    have hft2 : t.pipelines.find? (fun x => x.id == pid) = some q2 := hft
    have hq2m : q2 ∈ t.pipelines := List.mem_of_find?_eq_some hft2
    have hq2id : (q2.id == pid) = true :=
      List.find?_some (p := fun x : PipelineRow => x.id == pid) hft2
    have hq2q : q2 = q := by
      apply mem_unique_of_pairwise_ne (fun z => z.id) t.pipelines hWFt.2.1 q q2
        hqm hq2m
      have : q2.id = pid := by simpa using hq2id
      rw [this, hqid, hpid2]
    subst hq2q
    exact ⟨q2, rfl, hqid, hqv, hqeq⟩

/-- The central equivalence: along a trace, the ETag basis is unchanged
exactly when the (agent, region) assignment rows and their bound
pipeline versions are unchanged. -/
theorem etagBasis_eq_iff_view (s t : CPState) (hWFs : WF s) (hWFt : WF t)
    (htr : TraceRel s t) (a r : String) :
    etagBasis t a r = etagBasis s a r ↔
      assignmentView t a r = assignmentView s a r := by
  constructor
  · intro h
    unfold etagBasis at h
    unfold assignmentView
    refine map_eq_map_congr _ _ _ _ h ?_
    rintro ⟨xt, pt⟩ hxt ⟨xs, ps⟩ hxs hf
    obtain ⟨hxtm, _, _, _⟩ := joinRows_mem t a r xt pt hxt
    obtain ⟨hxsm, _, _, _⟩ := joinRows_mem s a r xs ps hxs
    simp only [EtagRow.mk.injEq] at hf
    have hxx : xt = xs :=
      assignment_eq_of_id s t hWFs htr xs xt hxsm hxtm hf.1
    simp only [Prod.mk.injEq]
    exact ⟨hxx, hf.2.2.1⟩
  · intro h
    unfold assignmentView at h
    unfold etagBasis
    refine map_eq_map_congr _ _ _ _ h ?_
    rintro ⟨xt, pt⟩ hxt ⟨xs, ps⟩ hxs hf
    simp only [Prod.mk.injEq] at hf
    obtain ⟨hxx, hver⟩ := hf
    obtain ⟨hxtm, _, _, hgt⟩ := joinRows_mem t a r xt pt hxt
    obtain ⟨hxsm, _, _, hgs⟩ := joinRows_mem s a r xs ps hxs
    rw [hxx] at hgt
    obtain ⟨q, hq, hqid, hqv, hqeq⟩ :=
      pipeline_lookup_persist s t hWFt htr xs.pipelineId ps hgs
    have hqpt : q = pt := by
      rw [hgt] at hq
      exact ((Option.some.injEq pt q).mp hq).symm
    have hpt_ps : pt = ps := by
      rw [← hqpt]
      exact hqeq (by rw [hqpt, hver])
    simp only [EtagRow.mk.injEq]
    exact ⟨by rw [hxx], by rw [hpt_ps], by rw [hpt_ps], by rw [hpt_ps]⟩

/-- The ETag basis only reads assignments and pipelines. -/
theorem etagBasis_ext (s t : CPState) (ha : t.assignments = s.assignments)
    (hp : t.pipelines = s.pipelines) (a r : String) :
    etagBasis t a r = etagBasis s a r := by
  unfold etagBasis joinRows assignmentRowsFor pipelineGet
  rw [ha, hp]

/-- C2: for every pair of reachable control-plane states (a state and a
later one along any sequence of API calls) and every (agent_id, region),
the ETag basis of `get_assignments` — whose canonical serialization is
what the SHA-256 ETag digests, so ETag equality is basis equality — is
unchanged if and only if the list of assignment rows of (agent_id,
region) paired with the versions of their bound pipelines is unchanged;
and in particular `register`, `heartbeat`, and the `last_seen_at` touch
performed by `get_assignments` itself never change it. -/
theorem etag_tracks_assignments (ops1 ops2 : List Op) (a r : String) :
    (etagBasis (runOps (runOps CPState.init ops1) ops2) a r =
        etagBasis (runOps CPState.init ops1) a r ↔
      assignmentView (runOps (runOps CPState.init ops1) ops2) a r =
        assignmentView (runOps CPState.init ops1) a r) ∧
    (∀ aid region ap caps now,
      etagBasis (step (runOps CPState.init ops1)
        (.register aid region ap caps now)) a r =
        etagBasis (runOps CPState.init ops1) a r) ∧
    (∀ aid region ap caps now,
      etagBasis (step (runOps CPState.init ops1)
        (.heartbeat aid region ap caps now)) a r =
        etagBasis (runOps CPState.init ops1) a r) ∧
    (∀ aid region now,
      etagBasis (step (runOps CPState.init ops1) (.pull aid region now)) a r =
        etagBasis (runOps CPState.init ops1) a r) := by
  obtain ⟨hWF1, _⟩ := runOps_facts CPState.init ops1 WF_init
  obtain ⟨hWF2, htr⟩ := runOps_facts (runOps CPState.init ops1) ops2 hWF1
  refine ⟨etagBasis_eq_iff_view _ _ hWF1 hWF2 htr a r, ?_, ?_, ?_⟩
  · intro aid region ap caps now
    refine etagBasis_ext _ _ ?_ ?_ a r <;>
      cases hag : agentGet (runOps CPState.init ops1) aid <;>
      simp [step, registerAgent, hag]
  · intro aid region ap caps now
    refine etagBasis_ext _ _ ?_ ?_ a r <;>
      cases hag : agentGet (runOps CPState.init ops1) aid <;>
      simp [step, heartbeatAgent, hag, Except.toOption]
  · intro aid region now
    refine etagBasis_ext _ _ ?_ ?_ a r <;>
      cases hres : getAssignmentsRes (runOps CPState.init ops1) aid region <;>
      cases hag : agentGet (runOps CPState.init ops1) aid <;>
      simp [step, touchAgent, hres, hag, Except.toOption]

end Observix
